import Mathlib

/-!
Shallow embedding of the bar-by-bar trade-execution core of the
crypto trading bot: the exit-price calculator (`compute_sl_tp`), the
position sizer (`calculate_position_size_spot`), the batch backtest driver
(`Backtester.run` from `backtesting/engine.py`), the streaming paper broker
(`PaperBroker` from `execution/paper_broker.py`), and the metrics aggregator
(`Backtester._calculate_metrics`).

Modelling choices:
* Python floats are embedded as `ℚ` (exact arithmetic; the code performs
  only field operations and comparisons).
* A possibly-missing or NaN volatility reading (`atr is None or np.isnan(atr)`)
  is embedded as `Option ℚ` with `none` for the invalid cases.
* `np.nan` results (the profit factor) are embedded as `Option ℚ` with
  `none` standing for NaN.
* Python exceptions (`raise ValueError`) become `Except EngineError`.
* Timestamps are `ℕ`; `pandas.sort_values` is a stable sort by timestamp,
  embedded as `List.mergeSort`.
* The broker's `open_positions` dict is keyed solely by the broker's own
  symbol, so it is embedded as an `Option Position`.
-/

namespace CryptoBot

/-- From `utils/risk.py`: `RiskManagementConfig`. -/
structure RiskManagementConfig where
  risk_pct : ℚ := 1/100
deriving DecidableEq, Repr

/-- From `utils/risk.py`: `calculate_position_size_spot`. -/
def calculate_position_size_spot (capital entry_price stop_price : ℚ)
    (config : RiskManagementConfig) : ℚ :=
  if capital ≤ 0 then 0
  else
    let risk_amount := capital * config.risk_pct
    let risk_per_unit := |entry_price - stop_price|
    if risk_per_unit ≤ 0 then 0
    else risk_amount / risk_per_unit

/-- From `backtesting/engine.py`: `BacktestConfig`. -/
structure BacktestConfig where
  initial_capital : ℚ
  sl_pct : Option ℚ := some (1/100)
  tp_rr : Option ℚ := some 2
  fee_pct : ℚ := 5/10000
  allow_short : Bool := true
  atr_window : Option ℕ := none
  atr_mult_sl : Option ℚ := none
  atr_mult_tp : Option ℚ := none
deriving DecidableEq, Repr

/-- From `execution/models.py`: `Side`. The engine uses the strings
"long"/"short"; both are embedded as this enum. -/
inductive Side where
  | long
  | short
deriving DecidableEq, Repr

/-- The two `ValueError`s the core can raise, named as in the spec's
error taxonomy. -/
inductive EngineError where
  | missingVolatilityData
  | invalidConfig
deriving DecidableEq, Repr

/-- From `backtesting/engine.py`: `compute_sl_tp`, returning `(sl_price, tp_price)`. -/
def compute_sl_tp (cfg : BacktestConfig) (side : Side) (entry_price : ℚ)
    (atr : Option ℚ) : Except EngineError (ℚ × ℚ) :=
  match cfg.atr_mult_sl, cfg.atr_mult_tp with
  | some msl, some mtp =>
    match atr with
    | none => .error .missingVolatilityData
    | some a =>
      match side with
      | .long => .ok (entry_price - a * msl, entry_price + a * mtp)
      | .short => .ok (entry_price + a * msl, entry_price - a * mtp)
  | _, _ =>
    match cfg.sl_pct, cfg.tp_rr with
    | some sl, some rr =>
      match side with
      | .long => .ok (entry_price * (1 - sl), entry_price * (1 + sl * rr))
      | .short => .ok (entry_price * (1 + sl), entry_price * (1 - sl * rr))
    | _, _ => .error .invalidConfig

/-- From `backtesting/engine.py`: `Trade`. -/
structure Trade where
  entry_time : ℕ
  exit_time : Option ℕ
  direction : Side
  entry_price : ℚ
  exit_price : Option ℚ
  size : ℚ
  stop_price : ℚ
  tp_price : ℚ
  pnl : Option ℚ := none
  pnl_pct : Option ℚ := none
deriving DecidableEq, Repr

/-- A bar row of the input DataFrame: the required columns
`timestamp, open, high, low, close, signal` plus the optional `atr`
column (`none` also covers a NaN `atr` cell). -/
structure Bar where
  timestamp : ℕ
  open_price : ℚ
  high : ℚ
  low : ℚ
  close : ℚ
  signal : ℤ
  atr : Option ℚ := none
deriving DecidableEq, Repr

/-- From `backtesting/engine.py`: `BacktestResult`. Here `profit_factor = none`
embeds `np.nan`. -/
structure BacktestResult where
  trades : List Trade := []
  equity_curve : List (ℕ × ℚ) := []
  total_return_pct : ℚ := 0
  max_drawdown_pct : ℚ := 0
  winrate_pct : ℚ := 0
  profit_factor : Option ℚ := some 0
  num_trades : ℕ := 0
deriving DecidableEq, Repr

/-- The mutable loop state of `Backtester.run`: `capital`, the equity
lists, the closed-trade list and the open trade. -/
structure EngineState where
  capital : ℚ
  equity : List (ℕ × ℚ) := []
  trades : List Trade := []
  open_trade : Option Trade := none
deriving DecidableEq, Repr

/-- The exit-price decision of engine.py lines 174-196: stop checked
first, then target, with the long/short conditions mirrored. -/
def engineExitPrice (ot : Trade) (bar : Bar) : Option ℚ :=
  match ot.direction with
  | .long =>
    if bar.low ≤ ot.stop_price then some ot.stop_price
    else if bar.high ≥ ot.tp_price then some ot.tp_price
    else none
  | .short =>
    if bar.high ≥ ot.stop_price then some ot.stop_price
    else if bar.low ≤ ot.tp_price then some ot.tp_price
    else none

/-- Step 1 of the loop body of `Backtester.run` (engine.py lines 169-219):
close the open trade on stop/target, stop checked first. -/
def engineStepExit (cfg : BacktestConfig) (st : EngineState) (bar : Bar) :
    EngineState :=
  match st.open_trade with
  | none => st
  | some ot =>
    match engineExitPrice ot bar with
    | none => st
    | some ep =>
      let pnl :=
        match ot.direction with
        | .long => (ep - ot.entry_price) * ot.size
        | .short => (ot.entry_price - ep) * ot.size
      let fee_exit := ep * ot.size * cfg.fee_pct
      let pnl_after_fees := pnl - fee_exit
      let closed : Trade :=
        { ot with
          exit_time := some bar.timestamp
          exit_price := some ep
          pnl := some pnl_after_fees
          pnl_pct := some (pnl_after_fees / cfg.initial_capital * 100) }
      { st with
        capital := st.capital + pnl_after_fees
        trades := st.trades ++ [closed]
        open_trade := none }

/-- Engine.py lines 221-223: record one equity sample after the exit phase. -/
def engineRecordEquity (st : EngineState) (bar : Bar) : EngineState :=
  { st with equity := st.equity ++ [(bar.timestamp, st.capital)] }

/-- Step 2 of the loop body of `Backtester.run` (engine.py lines 225-269):
possibly open a new position from the bar's signal. -/
def engineStepEntry (cfg : BacktestConfig) (rcfg : RiskManagementConfig)
    (st : EngineState) (bar : Bar) : Except EngineError EngineState :=
  if st.open_trade = none ∧ bar.signal ≠ 0 then
    let dir : Option Side :=
      if bar.signal = 1 then some .long
      else if bar.signal = -1 ∧ cfg.allow_short then some .short
      else none
    match dir with
    | none => .ok st
    | some direction =>
      let entry_price := bar.close
      match compute_sl_tp cfg direction entry_price bar.atr with
      | .error e => .error e
      | .ok (sl_price, tp_price) =>
        let size := calculate_position_size_spot st.capital entry_price sl_price rcfg
        if size > 0 then
          let fee_entry := entry_price * size * cfg.fee_pct
          .ok { st with
                capital := st.capital - fee_entry
                open_trade := some
                  { entry_time := bar.timestamp
                    exit_time := none
                    direction := direction
                    entry_price := entry_price
                    exit_price := none
                    size := size
                    stop_price := sl_price
                    tp_price := tp_price } }
        else .ok st
  else .ok st

/-- One full iteration of the loop of `Backtester.run`: exit phase,
equity sample, entry phase. -/
def engineStep (cfg : BacktestConfig) (rcfg : RiskManagementConfig)
    (st : EngineState) (bar : Bar) : Except EngineError EngineState :=
  engineStepEntry cfg rcfg (engineRecordEquity (engineStepExit cfg st bar) bar) bar

/-- The loop of `Backtester.run` over the (already sorted) rows. -/
def engineProcess (cfg : BacktestConfig) (rcfg : RiskManagementConfig)
    (st : EngineState) : List Bar → Except EngineError EngineState
  | [] => .ok st
  | bar :: rest =>
    match engineStep cfg rcfg st bar with
    | .error e => .error e
    | .ok st' => engineProcess cfg rcfg st' rest

/-- Running maximum helper: tail of pandas `cummax` given the running max
so far. -/
def cummaxAux (m : ℚ) : List ℚ → List ℚ
  | [] => []
  | x :: xs => max m x :: cummaxAux (max m x) xs

/-- pandas `Series.cummax` on the equity values. -/
def cummax : List ℚ → List ℚ
  | [] => []
  | x :: xs => x :: cummaxAux x xs

/-- pandas `Series.min` of a nonempty series (`0` is never used: callers
guard nonemptiness). -/
def listMin : List ℚ → ℚ
  | [] => 0
  | x :: xs => xs.foldl min x

/-- From `backtesting/engine.py`: `Backtester._calculate_metrics`. -/
def calculateMetrics (trades : List Trade) (equity : List (ℕ × ℚ)) :
    BacktestResult :=
  let num_trades := trades.length
  let evals := equity.map (·.2)
  let total_return_pct : ℚ :=
    match evals with
    | [] => 0
    | e0 :: _ => (evals.getLastD 0 / e0 - 1) * 100
  let max_drawdown_pct : ℚ :=
    match evals with
    | [] => 0
    | _ :: _ =>
      listMin (List.zipWith (fun e m => (e - m) / m) evals (cummax evals)) * 100
  let pnl_list := trades.filterMap (·.pnl)
  let wins := pnl_list.filter (0 < ·)
  let losses := pnl_list.filter (· < 0)
  let winrate_pct : ℚ :=
    if pnl_list.isEmpty then 0 else (wins.length : ℚ) / pnl_list.length * 100
  let profit_factor : Option ℚ :=
    if pnl_list.isEmpty then some 0
    else
      let gross_profit := wins.sum
      let gross_loss := losses.sum
      if gross_loss < 0 then
        if 0 < |gross_loss| then some (gross_profit / |gross_loss|) else none
      else none
  { trades := trades
    equity_curve := equity
    total_return_pct := total_return_pct
    max_drawdown_pct := max_drawdown_pct
    winrate_pct := winrate_pct
    profit_factor := profit_factor
    num_trades := num_trades }

/-- Embeds `df.sort_values("timestamp")`: pandas' stable sort by the timestamp
column. -/
def sortBars (bars : List Bar) : List Bar :=
  bars.mergeSort (fun a b => a.timestamp ≤ b.timestamp)

/-- From `backtesting/engine.py`: the `Backtester` object (its two config
fields; the constructor's not-None checks are enforced by the types). -/
structure Backtester where
  backtest_config : BacktestConfig
  risk_config : RiskManagementConfig
deriving DecidableEq, Repr

/-- From `backtesting/engine.py`: `Backtester.run`. The required-columns check
always passes here because the `Bar` type carries all required fields. -/
def Backtester.run (self : Backtester) (bars : List Bar) :
    Except EngineError BacktestResult :=
  let cfg := self.backtest_config
  let data := sortBars bars
  let st0 : EngineState := { capital := cfg.initial_capital }
  match engineProcess cfg self.risk_config st0 data with
  | .error e => .error e
  | .ok st => .ok (calculateMetrics st.trades st.equity)

/-- From `execution/models.py`: `Position`. -/
structure Position where
  symbol : String
  side : Side
  entry_time : ℕ
  entry_price : ℚ
  size : ℚ
  stop_price : ℚ
  tp_price : ℚ
deriving DecidableEq, Repr

/-- From `execution/models.py`: `TradeLogEntry`. -/
structure TradeLogEntry where
  symbol : String
  side : Side
  entry_time : ℕ
  exit_time : ℕ
  entry_price : ℚ
  exit_price : ℚ
  size : ℚ
  pnl : ℚ
  pnl_pct : ℚ
  reason : String
deriving DecidableEq, Repr

/-- From `execution/paper_broker.py`: a `PaperBroker` together with its mutable
state (`AccountState` and the equity lists). `open_position` embeds the
`open_positions` dict which is only ever keyed by `symbol`. -/
structure PaperBroker where
  symbol : String
  bt_cfg : BacktestConfig
  risk_cfg : RiskManagementConfig
  slippage_pct : ℚ := 0
  spread_pct : ℚ := 0
  capital : ℚ
  equity : ℚ
  open_position : Option Position := none
  history : List TradeLogEntry := []
  equity_times : List ℕ := []
  equity_values : List ℚ := []
deriving DecidableEq, Repr

/-- The `PaperBroker.__init__` constructor. -/
def PaperBroker.mk' (symbol : String) (backtest_config : BacktestConfig)
    (risk_config : RiskManagementConfig) (slippage_pct spread_pct : ℚ) :
    PaperBroker :=
  { symbol := symbol
    bt_cfg := backtest_config
    risk_cfg := risk_config
    slippage_pct := slippage_pct
    spread_pct := spread_pct
    capital := backtest_config.initial_capital
    equity := backtest_config.initial_capital }

/-- The raw exit decision of paper_broker.py lines 144-166: the price
level hit and the reason string, stop checked first. -/
def brokerRawExit (pos : Position) (high low : ℚ) : Option (ℚ × String) :=
  match pos.side with
  | .long =>
    if low ≤ pos.stop_price then some (pos.stop_price, "SL")
    else if high ≥ pos.tp_price then some (pos.tp_price, "TP")
    else none
  | .short =>
    if high ≥ pos.stop_price then some (pos.stop_price, "SL")
    else if low ≤ pos.tp_price then some (pos.tp_price, "TP")
    else none

/-- From `paper_broker.py`: `PaperBroker._process_existing_position`. -/
def PaperBroker.processExistingPosition (b : PaperBroker) (ts : ℕ)
    (high low : ℚ) : PaperBroker :=
  match b.open_position with
  | none => b
  | some pos =>
    match brokerRawExit pos high low with
    | none => b
    | some (raw_exit_price, reason) =>
      let exit_price :=
        if 0 < b.slippage_pct then
          match pos.side with
          | .long => raw_exit_price * (1 - b.slippage_pct)
          | .short => raw_exit_price * (1 + b.slippage_pct)
        else raw_exit_price
      let pnl :=
        match pos.side with
        | .long => (exit_price - pos.entry_price) * pos.size
        | .short => (pos.entry_price - exit_price) * pos.size
      let fee_entry := pos.entry_price * pos.size * b.bt_cfg.fee_pct
      let fee_exit := exit_price * pos.size * b.bt_cfg.fee_pct
      let pnl_after_fees := pnl - fee_entry - fee_exit
      let capital := b.capital + pnl_after_fees
      let entry : TradeLogEntry :=
        { symbol := b.symbol
          side := pos.side
          entry_time := pos.entry_time
          exit_time := ts
          entry_price := pos.entry_price
          exit_price := exit_price
          size := pos.size
          pnl := pnl_after_fees
          pnl_pct := pnl_after_fees / b.bt_cfg.initial_capital * 100
          reason := reason }
      { b with
        capital := capital
        equity := capital
        history := b.history ++ [entry]
        open_position := none }

/-- The effective entry price of paper_broker.py lines 237-251: the
close, worsened by half the spread and then by the slippage, each only
when configured positive. -/
def brokerEntryPrice (b : PaperBroker) (side : Side) (close : ℚ) : ℚ :=
  let ep1 :=
    if 0 < b.spread_pct then
      let half_spread := b.spread_pct / 2
      match side with
      | .long => close * (1 + half_spread)
      | .short => close * (1 - half_spread)
    else close
  if 0 < b.slippage_pct then
    match side with
    | .long => ep1 * (1 + b.slippage_pct)
    | .short => ep1 * (1 - b.slippage_pct)
  else ep1

/-- From `paper_broker.py`: `PaperBroker._maybe_open_position`. The first
(unused) `compute_sl_tp` call of the source is kept because its exception
behaviour is observable. -/
def PaperBroker.maybeOpenPosition (b : PaperBroker) (ts : ℕ) (close : ℚ)
    (signal : ℤ) (atr_value : Option ℚ) : Except EngineError PaperBroker :=
  if b.open_position.isSome then .ok b
  else
    let side : Option Side :=
      if signal = 1 then some .long
      else if signal = -1 ∧ b.bt_cfg.allow_short then some .short
      else none
    match side with
    | none => .ok b
    | some side =>
      match compute_sl_tp b.bt_cfg side close atr_value with
      | .error e => .error e
      | .ok _ =>
        let entry_price := brokerEntryPrice b side close
        match compute_sl_tp b.bt_cfg side entry_price atr_value with
        | .error e => .error e
        | .ok (sl_price_eff, tp_price_eff) =>
          let size := calculate_position_size_spot b.capital entry_price
            sl_price_eff b.risk_cfg
          if size ≤ 0 then .ok b
          else
            let fee_entry := entry_price * size * b.bt_cfg.fee_pct
            let capital := b.capital - fee_entry
            .ok { b with
                  capital := capital
                  equity := capital
                  open_position := some
                    { symbol := b.symbol
                      side := side
                      entry_time := ts
                      entry_price := entry_price
                      size := size
                      stop_price := sl_price_eff
                      tp_price := tp_price_eff } }

/-- From `paper_broker.py`: `PaperBroker.on_bar`. -/
def PaperBroker.on_bar (b : PaperBroker) (row : Bar) (signal : ℤ)
    (atr_value : Option ℚ) : Except EngineError PaperBroker :=
  let ts := row.timestamp
  let b1 := b.processExistingPosition ts row.high row.low
  let b2 := { b1 with
              equity_times := b1.equity_times ++ [ts]
              equity_values := b1.equity_values ++ [b1.capital] }
  if signal ≠ 0 then b2.maybeOpenPosition ts row.close signal atr_value
  else .ok b2

/-- Feed a bar sequence to the streaming driver one bar at a time, each
bar carrying its own signal and volatility reading. -/
def PaperBroker.feed (b : PaperBroker) : List Bar → Except EngineError PaperBroker
  | [] => .ok b
  | bar :: rest =>
    match b.on_bar bar bar.signal bar.atr with
    | .error e => .error e
    | .ok b' => PaperBroker.feed b' rest

/-- The common projection of a closed trade used to compare the two
drivers' trade histories: entry/exit times, direction, entry/exit prices,
size and realized pnl. -/
structure TradeView where
  entry_time : ℕ
  exit_time : ℕ
  side : Side
  entry_price : ℚ
  exit_price : ℚ
  size : ℚ
  pnl : ℚ
deriving DecidableEq, Repr

/-- View of an engine `Trade` (closed trades carry `some` in every
optional field). -/
def Trade.view (t : Trade) : TradeView :=
  { entry_time := t.entry_time
    exit_time := t.exit_time.getD 0
    side := t.direction
    entry_price := t.entry_price
    exit_price := t.exit_price.getD 0
    size := t.size
    pnl := t.pnl.getD 0 }

/-- View of a broker `TradeLogEntry`. -/
def TradeLogEntry.view (t : TradeLogEntry) : TradeView :=
  { entry_time := t.entry_time
    exit_time := t.exit_time
    side := t.side
    entry_price := t.entry_price
    exit_price := t.exit_price
    size := t.size
    pnl := t.pnl }

/-! ## Concrete data used by counterexamples and witnesses -/

/-- A configuration with `sl_pct = 0`: legal for `compute_sl_tp`, but the
stop coincides with the entry. -/
def cfgDegenerateSl : BacktestConfig :=
  { initial_capital := 1000, sl_pct := some 0, tp_rr := some 2, fee_pct := 0 }

/-- A bar-1 long position of the default sl/tp shape, used to witness C4. -/
def otW : Trade :=
  { entry_time := 1, exit_time := none, direction := .long, entry_price := 100,
    exit_price := none, size := 10, stop_price := 99, tp_price := 102 }

/-- An engine state holding `otW` open. -/
def stW : EngineState := { capital := 1000, open_trade := some otW }

/-- A bar that hits both the stop 99 (low 98) and the target 102 (high 103). -/
def barW : Bar :=
  { timestamp := 2, open_price := 100, high := 103, low := 98, close := 100,
    signal := 0 }

/-- The symbol used by the concrete broker instances. -/
def symX : String := "X"

/-- A 1%-stop, 2R-target configuration with a 0.1% fee. -/
def cfgX : BacktestConfig :=
  { initial_capital := 1000, sl_pct := some (1/100), tp_rr := some 2,
    fee_pct := 1/1000, allow_short := true }

/-- The default 1% fixed-fractional risk configuration. -/
def rcfgX : RiskManagementConfig := { risk_pct := 1/100 }

/-- Two bars: a long entry at close 100 on bar 1, and a bar-2 rally to
103 that hits the 102 target without touching the 99 stop. -/
def barsX : List Bar :=
  [ { timestamp := 1, open_price := 100, high := 100, low := 100, close := 100,
      signal := 1 },
    { timestamp := 2, open_price := 100, high := 103, low := 100, close := 102,
      signal := 0 } ]

/-- The single closed trade the batch driver produces on `barsX`:
pnl = 20 minus the 1.02 exit fee. -/
def tradeX : Trade :=
  { entry_time := 1, exit_time := some 2, direction := .long, entry_price := 100,
    exit_price := some 102, size := 10, stop_price := 99, tp_price := 102,
    pnl := some (949/50), pnl_pct := some (949/500) }

/-- The batch result on `barsX`. -/
def resX : BacktestResult :=
  { trades := [tradeX], equity_curve := [(1, 1000), (2, 50899/50)],
    total_return_pct := 899/500, max_drawdown_pct := 0, winrate_pct := 100,
    profit_factor := none, num_trades := 1 }

/-- A bar's signal selects a direction: long on 1, short on −1 when
shorting is allowed. -/
def Qualifies (cfg : BacktestConfig) (bar : Bar) : Prop :=
  bar.signal = 1 ∨ (bar.signal = -1 ∧ cfg.allow_short = true)

instance (cfg : BacktestConfig) (bar : Bar) : Decidable (Qualifies cfg bar) := by
  unfold Qualifies
  infer_instance

/-- An ATR-based configuration (both multipliers set). -/
def cfgAtr : BacktestConfig :=
  { initial_capital := 1000, sl_pct := some (1/100), tp_rr := some 2,
    fee_pct := 0, atr_mult_sl := some 2, atr_mult_tp := some 3 }

/-- A single entry bar with no volatility reading. -/
def barNoAtr : Bar :=
  { timestamp := 1, open_price := 100, high := 100, low := 100, close := 100,
    signal := 1, atr := none }

/-- Two well-formed bars in decreasing timestamp order (5 before 2). -/
def bars3 : List Bar :=
  [ { timestamp := 5, open_price := 100, high := 100, low := 100, close := 100,
      signal := 0 },
    { timestamp := 2, open_price := 100, high := 100, low := 100, close := 100,
      signal := 0 } ]

/-- The result of running `bars3`: the rows are processed in sorted
order (equity timestamps 2 then 5) and no error is raised. -/
def res3 : BacktestResult :=
  { trades := [], equity_curve := [(2, 1000), (5, 1000)],
    total_return_pct := 0, max_drawdown_pct := 0, winrate_pct := 0,
    profit_factor := some 0, num_trades := 0 }

/-- Correspondence between the engine's open trade and the broker's open
position: both absent, or both present with matching fields. -/
def OpenCorr : Option Trade → Option Position → Prop
  | none, none => True
  | some ot, some pos =>
      ot.direction = pos.side ∧ ot.entry_time = pos.entry_time ∧
      ot.entry_price = pos.entry_price ∧ ot.size = pos.size ∧
      ot.stop_price = pos.stop_price ∧ ot.tp_price = pos.tp_price
  | _, _ => False

/-- Correspondence between an engine loop state and a broker state under
a fixed configuration pair, for a broker configured without slippage and
spread: equal capital, matching trade histories (up to the common
projection), matching equity samples, and corresponding open positions. -/
def Corr (cfg : BacktestConfig) (rcfg : RiskManagementConfig)
    (st : EngineState) (b : PaperBroker) : Prop :=
  b.bt_cfg = cfg ∧ b.risk_cfg = rcfg ∧ b.slippage_pct = 0 ∧
  b.spread_pct = 0 ∧ st.capital = b.capital ∧
  st.trades.map Trade.view = b.history.map TradeLogEntry.view ∧
  st.equity = b.equity_times.zip b.equity_values ∧
  b.equity_times.length = b.equity_values.length ∧
  OpenCorr st.open_trade b.open_position

/-- The zero-fee variant of the two-bar configuration. -/
def cfg0 : BacktestConfig :=
  { initial_capital := 1000, sl_pct := some (1/100), tp_rr := some 2,
    fee_pct := 0, allow_short := true }

/-- The single closed trade of the zero-fee run: pnl exactly 20. -/
def trade0 : Trade :=
  { entry_time := 1, exit_time := some 2, direction := .long, entry_price := 100,
    exit_price := some 102, size := 10, stop_price := 99, tp_price := 102,
    pnl := some 20, pnl_pct := some 2 }

/-- The zero-fee batch result on `barsX`. -/
def res0 : BacktestResult :=
  { trades := [trade0], equity_curve := [(1, 1000), (2, 1020)],
    total_return_pct := 2, max_drawdown_pct := 0, winrate_pct := 100,
    profit_factor := none, num_trades := 1 }

/-- Two bars producing a losing trade: a long entry at close 100 on
bar 1, then a bar-2 drop to 98 that hits the 99 stop. -/
def barsL : List Bar :=
  [ { timestamp := 1, open_price := 100, high := 100, low := 100, close := 100,
      signal := 1 },
    { timestamp := 2, open_price := 100, high := 100, low := 98, close := 98,
      signal := 0 } ]

/-- The single losing trade of the zero-fee run on `barsL`: stopped out
at 99 for a pnl of −10. -/
def tradeL : Trade :=
  { entry_time := 1, exit_time := some 2, direction := .long, entry_price := 100,
    exit_price := some 99, size := 10, stop_price := 99, tp_price := 102,
    pnl := some (-10), pnl_pct := some (-1) }

/-- The zero-fee batch result on `barsL`: one losing trade, profit
factor 0 / |−10| = 0. -/
def resL : BacktestResult :=
  { trades := [tradeL], equity_curve := [(1, 1000), (2, 990)],
    total_return_pct := -1, max_drawdown_pct := -1, winrate_pct := 0,
    profit_factor := some 0, num_trades := 1 }

/-! ## C5: the position sizer -/

/-- C5 counterexample: with a negative `risk_pct` the sizer returns a
negative size, so the unconditional claim "output ≥ 0 for every
capital, entry, stop and risk_pct" is false: at capital 1, entry 2,
stop 1, risk_pct −1 the output is −1. -/
theorem position_sizer_negative_risk_counterexample :
    ¬ (0 ≤ calculate_position_size_spot 1 2 1 { risk_pct := -1 }) := by
  norm_num [calculate_position_size_spot]

/-- C5 (amended: assuming `0 < risk_pct`, as the spec's RiskConfig intends):
the sizer's output is ≥ 0; it is 0 iff capital ≤ 0 or
|entry − stop| ≤ 0; otherwise it equals capital × risk_pct / |entry − stop|. -/
theorem position_sizer_spec (capital entry_price stop_price : ℚ)
    (rcfg : RiskManagementConfig) (hrisk : 0 < rcfg.risk_pct) :
    0 ≤ calculate_position_size_spot capital entry_price stop_price rcfg ∧
    (calculate_position_size_spot capital entry_price stop_price rcfg = 0 ↔
      capital ≤ 0 ∨ |entry_price - stop_price| ≤ 0) ∧
    (0 < capital → 0 < |entry_price - stop_price| →
      calculate_position_size_spot capital entry_price stop_price rcfg =
        capital * rcfg.risk_pct / |entry_price - stop_price|) := by
  unfold calculate_position_size_spot
  by_cases hc : capital ≤ 0
  · refine ⟨by simp [hc], by simp [hc], ?_⟩
    intro hc' _
    exact absurd hc (not_le.mpr hc')
  · push_neg at hc
    by_cases hr : |entry_price - stop_price| ≤ 0
    · refine ⟨by simp [not_le.mpr hc, hr], by simp [not_le.mpr hc, hr], ?_⟩
      intro _ hr'
      exact absurd hr (not_le.mpr hr')
    · push_neg at hr
      have hpos : 0 < capital * rcfg.risk_pct / |entry_price - stop_price| :=
        div_pos (mul_pos hc hrisk) hr
      refine ⟨?_, ?_, ?_⟩
      · simp only [if_neg (not_le.mpr hc), if_neg (not_le.mpr hr)]
        exact le_of_lt hpos
      · simp only [if_neg (not_le.mpr hc), if_neg (not_le.mpr hr)]
        constructor
        · intro h
          exact absurd h (ne_of_gt hpos)
        · rintro (h | h)
          · exact absurd hc (not_lt.mpr h)
          · exact absurd hr (not_lt.mpr h)
      · intro _ _
        simp only [if_neg (not_le.mpr hc), if_neg (not_le.mpr hr)]

/-- C5 witness: the amended sizer specification instantiated at
capital 1000, entry 100, stop 99, risk_pct 1/100 (the spec's Scenario 4,
where the size is 10). -/
theorem position_sizer_spec_witness :
    0 ≤ calculate_position_size_spot 1000 100 99 { risk_pct := 1/100 } ∧
    (calculate_position_size_spot 1000 100 99 { risk_pct := 1/100 } = 0 ↔
      (1000 : ℚ) ≤ 0 ∨ |(100 : ℚ) - 99| ≤ 0) ∧
    ((0 : ℚ) < 1000 → 0 < |(100 : ℚ) - 99| →
      calculate_position_size_spot 1000 100 99 { risk_pct := 1/100 } =
        1000 * (1/100) / |(100 : ℚ) - 99|) :=
  position_sizer_spec 1000 100 99 { risk_pct := 1/100 } (by norm_num)

/-! ## C6: the stop/target bracket invariant -/

/-- C6 counterexample: with `sl_pct = 0` the calculator succeeds but
returns stop = entry (100, not < 100), so "stop < entry < target for
every configuration and entry price" is false. -/
theorem sl_tp_degenerate_counterexample :
    compute_sl_tp cfgDegenerateSl Side.long 100 none = Except.ok (100, 100) ∧
    ¬ ((100 : ℚ) < 100) := by
  norm_num [compute_sl_tp, cfgDegenerateSl]

/-- C6 (amended: assuming a positive entry price and strictly positive
exit-model parameters — positive `sl_pct`/`tp_rr` in fixed mode, positive
volatility and multipliers in ATR mode): the returned pair satisfies
stop < entry < target for long and target < entry < stop for short. -/
theorem sl_tp_bracket (cfg : BacktestConfig) (side : Side) (entry_price : ℚ)
    (atr : Option ℚ) (sl tp : ℚ)
    (hentry : 0 < entry_price)
    (hatr : ∀ a, atr = some a → 0 < a)
    (hmsl : ∀ x, cfg.atr_mult_sl = some x → 0 < x)
    (hmtp : ∀ x, cfg.atr_mult_tp = some x → 0 < x)
    (hsl : ∀ x, cfg.sl_pct = some x → 0 < x)
    (hrr : ∀ x, cfg.tp_rr = some x → 0 < x)
    (hok : compute_sl_tp cfg side entry_price atr = .ok (sl, tp)) :
    (side = .long → sl < entry_price ∧ entry_price < tp) ∧
    (side = .short → tp < entry_price ∧ entry_price < sl) := by
  unfold compute_sl_tp at hok
  cases side
  case long =>
    refine ⟨fun _ => ?_, fun h => by cases h⟩
    rcases hA : cfg.atr_mult_sl with _ | msl <;>
      rcases hB : cfg.atr_mult_tp with _ | mtp <;> rw [hA, hB] at hok
    on_goal 4 =>
      rcases atr with _ | a
      · simp at hok
      · simp only [Except.ok.injEq, Prod.mk.injEq] at hok
        obtain ⟨h1, h2⟩ := hok
        subst h1; subst h2
        have ha := hatr a rfl
        have hm1 := hmsl msl hA
        have hm2 := hmtp mtp hB
        constructor <;> nlinarith [mul_pos ha hm1, mul_pos ha hm2]
    all_goals
      rcases hS : cfg.sl_pct with _ | s <;> rcases hR : cfg.tp_rr with _ | r <;>
        rw [hS, hR] at hok <;>
        simp only [Except.ok.injEq, Prod.mk.injEq, reduceCtorEq] at hok
    all_goals
      obtain ⟨h1, h2⟩ := hok
      subst h1; subst h2
      have hs := hsl s hS
      have hr := hrr r hR
      constructor <;>
        nlinarith [mul_pos hentry hs, mul_pos hentry (mul_pos hs hr)]
  case short =>
    refine ⟨fun h => (by cases h), fun _ => ?_⟩
    rcases hA : cfg.atr_mult_sl with _ | msl <;>
      rcases hB : cfg.atr_mult_tp with _ | mtp <;> rw [hA, hB] at hok
    on_goal 4 =>
      rcases atr with _ | a
      · simp at hok
      · simp only [Except.ok.injEq, Prod.mk.injEq] at hok
        obtain ⟨h1, h2⟩ := hok
        subst h1; subst h2
        have ha := hatr a rfl
        have hm1 := hmsl msl hA
        have hm2 := hmtp mtp hB
        constructor <;> nlinarith [mul_pos ha hm1, mul_pos ha hm2]
    all_goals
      rcases hS : cfg.sl_pct with _ | s <;> rcases hR : cfg.tp_rr with _ | r <;>
        rw [hS, hR] at hok <;>
        simp only [Except.ok.injEq, Prod.mk.injEq, reduceCtorEq] at hok
    all_goals
      obtain ⟨h1, h2⟩ := hok
      subst h1; subst h2
      have hs := hsl s hS
      have hr := hrr r hR
      constructor <;>
        nlinarith [mul_pos hentry hs, mul_pos hentry (mul_pos hs hr)]

/-- C6 witness: the amended bracket invariant instantiated at the
default fixed-percent configuration (sl_pct 1/100, tp_rr 2) with entry
price 100: the stop 99 and target 102 bracket the entry. -/
theorem sl_tp_bracket_witness :
    (Side.long = Side.long → (99 : ℚ) < 100 ∧ (100 : ℚ) < 102) ∧
    (Side.long = Side.short → (102 : ℚ) < 100 ∧ (100 : ℚ) < 99) :=
  sl_tp_bracket { initial_capital := 1000, sl_pct := some (1/100), tp_rr := some 2 }
    Side.long 100 none 99 102 (by norm_num) (by intro a h; cases h)
    (by intro x h; cases h) (by intro x h; cases h)
    (by intro x h; injection h with h; subst h; norm_num)
    (by intro x h; injection h with h; subst h; norm_num)
    (by norm_num [compute_sl_tp])

/-! ## General lemmas about the engine's per-bar step -/

/-- The exit phase never touches the equity list. -/
theorem engineStepExit_equity (cfg : BacktestConfig) (st : EngineState)
    (bar : Bar) : (engineStepExit cfg st bar).equity = st.equity := by
  unfold engineStepExit
  repeat' split
  all_goals rfl

/-- The entry phase never touches the equity list or the closed-trade
list (it only debits capital and creates the open position). -/
theorem engineStepEntry_equity_trades {cfg : BacktestConfig}
    {rcfg : RiskManagementConfig} {st : EngineState} {bar : Bar}
    {st' : EngineState} (h : engineStepEntry cfg rcfg st bar = .ok st') :
    st'.equity = st.equity ∧ st'.trades = st.trades := by
  unfold engineStepEntry at h
  split at h
  · split at h
    · dsimp only at h
      rcases hc : compute_sl_tp cfg .long bar.close bar.atr with e | ⟨sl, tp⟩ <;>
        rw [hc] at h
      · cases h
      · dsimp only at h
        split at h <;> cases h <;> exact ⟨rfl, rfl⟩
    · split at h
      · dsimp only at h
        rcases hc : compute_sl_tp cfg .short bar.close bar.atr with e | ⟨sl, tp⟩ <;>
          rw [hc] at h
        · cases h
        · dsimp only at h
          split at h <;> cases h <;> exact ⟨rfl, rfl⟩
      · dsimp only at h
        cases h
        exact ⟨rfl, rfl⟩
  · cases h
    exact ⟨rfl, rfl⟩

/-- Every trade present after the exit phase was already present before,
or is the newly closed trade, which carries `pnl = some p` and
`pnl_pct = some (p / initial_capital * 100)`. -/
theorem engineStepExit_trades_shape (cfg : BacktestConfig) (st : EngineState)
    (bar : Bar) :
    ∀ t ∈ (engineStepExit cfg st bar).trades,
      t ∈ st.trades ∨
        ∃ p, t.pnl = some p ∧
          t.pnl_pct = some (p / cfg.initial_capital * 100) := by
  intro t ht
  unfold engineStepExit at ht
  rcases hop : st.open_trade with _ | ot <;> rw [hop] at ht <;> dsimp only at ht
  · exact Or.inl ht
  · rcases hep : engineExitPrice ot bar with _ | ep <;> rw [hep] at ht <;>
      dsimp only at ht
    · exact Or.inl ht
    · simp only [List.mem_append, List.mem_singleton] at ht
      rcases ht with ht | ht
      · exact Or.inl ht
      · subst ht
        exact Or.inr ⟨_, rfl, rfl⟩

/-- Step-level version of `engineStepExit_trades_shape`. -/
theorem engineStep_trades_shape {cfg : BacktestConfig}
    {rcfg : RiskManagementConfig} {st : EngineState} {bar : Bar}
    {st' : EngineState} (h : engineStep cfg rcfg st bar = .ok st') :
    ∀ t ∈ st'.trades,
      t ∈ st.trades ∨
        ∃ p, t.pnl = some p ∧
          t.pnl_pct = some (p / cfg.initial_capital * 100) := by
  unfold engineStep at h
  obtain ⟨-, htr⟩ := engineStepEntry_equity_trades h
  intro t ht
  rw [htr] at ht
  exact engineStepExit_trades_shape cfg st bar t ht

/-- The per-trade pnl/pnl_pct shape is preserved by the whole loop. -/
theorem engineProcess_trades_shape {cfg : BacktestConfig}
    {rcfg : RiskManagementConfig} :
    ∀ (bars : List Bar) (st st' : EngineState),
      engineProcess cfg rcfg st bars = .ok st' →
      (∀ t ∈ st.trades,
        ∃ p, t.pnl = some p ∧
          t.pnl_pct = some (p / cfg.initial_capital * 100)) →
      ∀ t ∈ st'.trades,
        ∃ p, t.pnl = some p ∧
          t.pnl_pct = some (p / cfg.initial_capital * 100) := by
  intro bars
  induction bars with
  | nil =>
    intro st st' h hinv
    cases h
    exact hinv
  | cons bar rest ih =>
    intro st st' h hinv
    unfold engineProcess at h
    rcases hstep : engineStep cfg rcfg st bar with e | st1 <;> rw [hstep] at h
    · cases h
    · refine ih st1 st' h ?_
      intro t ht
      rcases engineStep_trades_shape hstep t ht with hmem | hnew
      · exact hinv t hmem
      · exact hnew

/-- The result trades of a batch run are exactly the loop state's trades. -/
theorem run_trades_shape {cfg : BacktestConfig} {rcfg : RiskManagementConfig}
    {bars : List Bar} {res : BacktestResult}
    (h : Backtester.run ⟨cfg, rcfg⟩ bars = .ok res) :
    ∀ t ∈ res.trades,
      ∃ p, t.pnl = some p ∧
        t.pnl_pct = some (p / cfg.initial_capital * 100) := by
  unfold Backtester.run at h
  rcases hp : engineProcess cfg rcfg { capital := cfg.initial_capital }
      (sortBars bars) with e | st <;>
    simp only [hp] at h
  · cases h
  · cases h
    exact engineProcess_trades_shape (sortBars bars) _ st hp
      (by intro t ht; cases ht)

/-! ## C4: same-bar stop/target tie-break -/

/-- C4: when a bar hits both levels of an open position, the stop wins.
Engine (long and short) and broker (long and short, reason "SL"); in the
broker the recorded exit price equals the stop when no slippage is
configured. -/
theorem stop_precedence :
    (∀ (cfg : BacktestConfig) (st : EngineState) (bar : Bar) (ot : Trade),
      st.open_trade = some ot → ot.direction = .long →
      bar.low ≤ ot.stop_price → bar.high ≥ ot.tp_price →
      ∃ t, (engineStepExit cfg st bar).trades = st.trades ++ [t] ∧
        t.exit_price = some ot.stop_price ∧
        (engineStepExit cfg st bar).open_trade = none) ∧
    (∀ (cfg : BacktestConfig) (st : EngineState) (bar : Bar) (ot : Trade),
      st.open_trade = some ot → ot.direction = .short →
      bar.high ≥ ot.stop_price → bar.low ≤ ot.tp_price →
      ∃ t, (engineStepExit cfg st bar).trades = st.trades ++ [t] ∧
        t.exit_price = some ot.stop_price ∧
        (engineStepExit cfg st bar).open_trade = none) ∧
    (∀ (b : PaperBroker) (ts : ℕ) (high low : ℚ) (pos : Position),
      b.open_position = some pos → pos.side = .long → b.slippage_pct = 0 →
      low ≤ pos.stop_price → high ≥ pos.tp_price →
      ∃ e, (b.processExistingPosition ts high low).history = b.history ++ [e] ∧
        e.exit_price = pos.stop_price ∧ e.reason = "SL") ∧
    (∀ (b : PaperBroker) (ts : ℕ) (high low : ℚ) (pos : Position),
      b.open_position = some pos → pos.side = .short → b.slippage_pct = 0 →
      high ≥ pos.stop_price → low ≤ pos.tp_price →
      ∃ e, (b.processExistingPosition ts high low).history = b.history ++ [e] ∧
        e.exit_price = pos.stop_price ∧ e.reason = "SL") := by
  refine ⟨?_, ?_, ?_, ?_⟩
  · intro cfg st bar ot hopen hdir h1 h2
    unfold engineStepExit
    rw [hopen]
    dsimp only
    rw [show engineExitPrice ot bar = some ot.stop_price by
      unfold engineExitPrice; rw [hdir]; exact if_pos h1]
    exact ⟨_, rfl, rfl, rfl⟩
  · intro cfg st bar ot hopen hdir h1 h2
    unfold engineStepExit
    rw [hopen]
    dsimp only
    rw [show engineExitPrice ot bar = some ot.stop_price by
      unfold engineExitPrice; rw [hdir]; exact if_pos h1]
    exact ⟨_, rfl, rfl, rfl⟩
  · intro b ts high low pos hopen hside hslip h1 h2
    unfold PaperBroker.processExistingPosition
    rw [hopen]
    dsimp only
    rw [show brokerRawExit pos high low = some (pos.stop_price, "SL") by
      unfold brokerRawExit; rw [hside]; exact if_pos h1]
    dsimp only
    rw [hslip, if_neg (lt_irrefl (0 : ℚ))]
    exact ⟨_, rfl, rfl, rfl⟩
  · intro b ts high low pos hopen hside hslip h1 h2
    unfold PaperBroker.processExistingPosition
    rw [hopen]
    dsimp only
    rw [show brokerRawExit pos high low = some (pos.stop_price, "SL") by
      unfold brokerRawExit; rw [hside]; exact if_pos h1]
    dsimp only
    rw [hslip, if_neg (lt_irrefl (0 : ℚ))]
    exact ⟨_, rfl, rfl, rfl⟩

/-- C4 witness: on `barW`, which touches both levels of the open long
`otW`, the engine closes at the stop price 99. -/
theorem stop_precedence_witness :
    ∃ t, (engineStepExit { initial_capital := 1000 } stW barW).trades =
        stW.trades ++ [t] ∧
      t.exit_price = some otW.stop_price ∧
      (engineStepExit { initial_capital := 1000 } stW barW).open_trade = none :=
  stop_precedence.1 { initial_capital := 1000 } stW barW otW rfl rfl
    (by norm_num [barW, otW]) (by norm_num [barW, otW])

/-! ## Broker-side history lemmas -/

/-- Every log entry present after the broker's exit phase was already
present before, or is the newly closed entry, whose `pnl_pct` equals its
`pnl` divided by the configured initial capital times 100. -/
theorem brokerProcessExisting_history_shape (b : PaperBroker) (ts : ℕ)
    (high low : ℚ) :
    ∀ e ∈ (b.processExistingPosition ts high low).history,
      e ∈ b.history ∨
        e.pnl_pct = e.pnl / b.bt_cfg.initial_capital * 100 := by
  intro e he
  unfold PaperBroker.processExistingPosition at he
  rcases hop : b.open_position with _ | pos <;> rw [hop] at he <;>
    try dsimp only at he
  · exact Or.inl he
  · rcases hre : brokerRawExit pos high low with _ | ⟨raw, reason⟩ <;>
      rw [hre] at he <;> dsimp only at he
    · exact Or.inl he
    · simp only [List.mem_append, List.mem_singleton] at he
      rcases he with he | he
      · exact Or.inl he
      · subst he
        exact Or.inr rfl

/-- The broker's exit phase never changes the configuration fields. -/
theorem brokerProcessExisting_cfg (b : PaperBroker) (ts : ℕ) (high low : ℚ) :
    (b.processExistingPosition ts high low).bt_cfg = b.bt_cfg ∧
    (b.processExistingPosition ts high low).risk_cfg = b.risk_cfg ∧
    (b.processExistingPosition ts high low).slippage_pct = b.slippage_pct ∧
    (b.processExistingPosition ts high low).spread_pct = b.spread_pct := by
  unfold PaperBroker.processExistingPosition
  repeat' split
  all_goals exact ⟨rfl, rfl, rfl, rfl⟩

/-- A successful `_maybe_open_position` never changes the history or
the configuration fields. -/
theorem brokerMaybeOpen_history {b : PaperBroker} {ts : ℕ} {close : ℚ}
    {signal : ℤ} {atr : Option ℚ} {b' : PaperBroker}
    (h : b.maybeOpenPosition ts close signal atr = .ok b') :
    b'.history = b.history ∧ b'.bt_cfg = b.bt_cfg ∧
    b'.risk_cfg = b.risk_cfg ∧ b'.slippage_pct = b.slippage_pct ∧
    b'.spread_pct = b.spread_pct := by
  unfold PaperBroker.maybeOpenPosition at h
  split at h
  · cases h
    exact ⟨rfl, rfl, rfl, rfl, rfl⟩
  · split at h
    · try dsimp only at h
      rcases hc1 : compute_sl_tp b.bt_cfg .long close atr with e | ⟨sl, tp⟩ <;>
        rw [hc1] at h <;> try dsimp only at h
      · cases h
      · rcases hc2 : compute_sl_tp b.bt_cfg .long
            (brokerEntryPrice b .long close) atr with e | ⟨sl2, tp2⟩ <;>
          rw [hc2] at h <;> try dsimp only at h
        · cases h
        · split at h <;> cases h <;> exact ⟨rfl, rfl, rfl, rfl, rfl⟩
    · split at h
      · try dsimp only at h
        rcases hc1 : compute_sl_tp b.bt_cfg .short close atr with e | ⟨sl, tp⟩ <;>
          rw [hc1] at h <;> try dsimp only at h
        · cases h
        · rcases hc2 : compute_sl_tp b.bt_cfg .short
              (brokerEntryPrice b .short close) atr with e | ⟨sl2, tp2⟩ <;>
            rw [hc2] at h <;> try dsimp only at h
          · cases h
          · split at h <;> cases h <;> exact ⟨rfl, rfl, rfl, rfl, rfl⟩
      · try dsimp only at h
        cases h
        exact ⟨rfl, rfl, rfl, rfl, rfl⟩

/-- At the `on_bar` level: new history entries carry the pnl_pct shape, and the
configuration fields are unchanged. -/
theorem brokerOnBar_history_shape {b : PaperBroker} {row : Bar} {signal : ℤ}
    {atr : Option ℚ} {b' : PaperBroker}
    (h : b.on_bar row signal atr = .ok b') :
    (∀ e ∈ b'.history,
      e ∈ b.history ∨ e.pnl_pct = e.pnl / b.bt_cfg.initial_capital * 100) ∧
    b'.bt_cfg = b.bt_cfg := by
  unfold PaperBroker.on_bar at h
  dsimp only at h
  split at h
  · obtain ⟨hh, hcfg, -, -, -⟩ := brokerMaybeOpen_history h
    refine ⟨?_, ?_⟩
    · intro e he
      rw [hh] at he
      exact brokerProcessExisting_history_shape b row.timestamp row.high
        row.low e he
    · exact hcfg.trans (brokerProcessExisting_cfg b row.timestamp row.high
        row.low).1
  · cases h
    refine ⟨?_, (brokerProcessExisting_cfg b row.timestamp row.high row.low).1⟩
    intro e he
    exact brokerProcessExisting_history_shape b row.timestamp row.high
      row.low e he

/-- Feeding any bar list preserves the configuration and the pnl_pct
shape of every history entry. -/
theorem brokerFeed_shape :
    ∀ (bars : List Bar) (b b' : PaperBroker), PaperBroker.feed b bars = .ok b' →
      b'.bt_cfg = b.bt_cfg ∧
      ((∀ e ∈ b.history, e.pnl_pct = e.pnl / b.bt_cfg.initial_capital * 100) →
        ∀ e ∈ b'.history, e.pnl_pct = e.pnl / b.bt_cfg.initial_capital * 100) := by
  intro bars
  induction bars with
  | nil =>
    intro b b' h
    cases h
    exact ⟨rfl, fun hb => hb⟩
  | cons bar rest ih =>
    intro b b' h
    unfold PaperBroker.feed at h
    rcases hb : b.on_bar bar bar.signal bar.atr with e | b1 <;> rw [hb] at h
    · cases h
    · obtain ⟨hshape, hcfg⟩ := brokerOnBar_history_shape hb
      obtain ⟨hcfg', himp⟩ := ih b1 b' h
      refine ⟨hcfg'.trans hcfg, fun hbase => ?_⟩
      have h1 : ∀ e ∈ b1.history,
          e.pnl_pct = e.pnl / b1.bt_cfg.initial_capital * 100 := by
        intro e he
        rw [hcfg]
        rcases hshape e he with hmem | heq
        · exact hbase e hmem
        · exact heq
      intro e he
      have := himp h1 e he
      rwa [hcfg] at this

/-! ## C10: pnl_pct is measured against the initial capital -/

/-- C10: in both drivers, each closed trade's `pnl_pct` equals its
after-fee pnl divided by the configured `initial_capital` times 100 —
not the entry notional, not the running capital. -/
theorem pnl_pct_uses_initial_capital :
    (∀ (cfg : BacktestConfig) (rcfg : RiskManagementConfig) (bars : List Bar)
        (res : BacktestResult),
      Backtester.run ⟨cfg, rcfg⟩ bars = .ok res →
      ∀ t ∈ res.trades, ∀ p, t.pnl = some p →
        t.pnl_pct = some (p / cfg.initial_capital * 100)) ∧
    (∀ (sym : String) (cfg : BacktestConfig) (rcfg : RiskManagementConfig)
        (slip spread : ℚ) (bars : List Bar) (b' : PaperBroker),
      PaperBroker.feed (PaperBroker.mk' sym cfg rcfg slip spread) bars = .ok b' →
      ∀ e ∈ b'.history, e.pnl_pct = e.pnl / cfg.initial_capital * 100) := by
  constructor
  · intro cfg rcfg bars res h t ht p hp
    obtain ⟨p', hp', hpct⟩ := run_trades_shape h t ht
    rw [hp] at hp'
    cases hp'
    exact hpct
  · intro sym cfg rcfg slip spread bars b' h e he
    exact (brokerFeed_shape bars _ b' h).2 (by intro e he; cases he) e he

/-! ## Concrete two-bar data used by several counterexamples/witnesses -/

/-- The batch driver's concrete output on the two-bar scenario. -/
theorem runX_eval : Backtester.run ⟨cfgX, rcfgX⟩ barsX = .ok resX := by
  norm_num [Backtester.run, sortBars, engineProcess, engineStep, engineStepExit,
    engineExitPrice, engineRecordEquity, engineStepEntry, compute_sl_tp,
    calculate_position_size_spot, calculateMetrics, cfgX, rcfgX, barsX,
    List.mergeSort, listMin, cummax, cummaxAux, List.filterMap, List.filter,
    resX, tradeX, BacktestResult.mk.injEq, Trade.mk.injEq]

/-- C10 witness: on the two-bar scenario the closed trade's pnl_pct is
its pnl 949/50 divided by the initial capital 1000, times 100. -/
theorem pnl_pct_uses_initial_capital_witness :
    tradeX.pnl_pct = some ((949/50 : ℚ) / cfgX.initial_capital * 100) :=
  pnl_pct_uses_initial_capital.1 cfgX rcfgX barsX resX runX_eval tradeX
    (by simp [resX]) (949/50) rfl

/-! ## C2: when profit_factor is NaN -/

/-- If every trade carries a pnl, the filterMapped pnl list is empty
exactly when the trade list is. -/
theorem filterMap_pnl_eq_nil_iff {trades : List Trade}
    (h : ∀ t ∈ trades, ∃ p, t.pnl = some p) :
    trades.filterMap (·.pnl) = [] ↔ trades = [] := by
  induction trades with
  | nil => simp
  | cons t ts ih =>
    obtain ⟨p, hp⟩ := h t (List.mem_cons_self t ts)
    simp [List.filterMap_cons, hp]

/-- A list of negative rationals has nonpositive sum. -/
theorem sum_nonpos_of_all_neg {l : List ℚ} (h : ∀ x ∈ l, x < 0) :
    l.sum ≤ 0 := by
  induction l with
  | nil => simp
  | cons x xs ih =>
    have hx := h x (List.mem_cons_self x xs)
    have hxs := ih fun y hy => h y (List.mem_cons_of_mem x hy)
    simp only [List.sum_cons]
    linarith

/-- A list of negative rationals has negative sum iff it is nonempty. -/
theorem sum_neg_iff_ne_nil {l : List ℚ} (h : ∀ x ∈ l, x < 0) :
    l.sum < 0 ↔ l ≠ [] := by
  cases l with
  | nil => simp
  | cons x xs =>
    have hx := h x (List.mem_cons_self x xs)
    have hxs := sum_nonpos_of_all_neg fun y hy => h y (List.mem_cons_of_mem x hy)
    simp only [List.sum_cons, ne_eq, reduceCtorEq, not_false_eq_true, iff_true]
    linarith

/-- Characterization of the profit factor of `_calculate_metrics`: NaN
(`none`) exactly when the pnl list is nonempty and has no negative
entry; `some 0` when the pnl list is empty. -/
theorem calculateMetrics_pf_none_iff (trades : List Trade)
    (equity : List (ℕ × ℚ)) (h : ∀ t ∈ trades, ∃ p, t.pnl = some p) :
    ((calculateMetrics trades equity).profit_factor = none ↔
      trades ≠ [] ∧ ∀ t ∈ trades, ∀ p, t.pnl = some p → 0 ≤ p) := by
  unfold calculateMetrics
  dsimp only
  by_cases hemp : (trades.filterMap (·.pnl)).isEmpty
  · rw [List.isEmpty_iff] at hemp
    have htr : trades = [] := (filterMap_pnl_eq_nil_iff h).mp hemp
    subst htr
    simp
  · have hlneg : ∀ x ∈ (trades.filterMap (·.pnl)).filter (· < 0), x < 0 := by
      intro x hx
      have := List.of_mem_filter hx
      exact of_decide_eq_true this
    rw [List.isEmpty_iff] at hemp
    have htr : trades ≠ [] := fun ht => hemp ((filterMap_pnl_eq_nil_iff h).mpr ht)
    simp only [List.isEmpty_iff, if_neg hemp, htr, ne_eq, not_false_eq_true,
      true_and]
    constructor
    · intro hpf
      split at hpf
      · next hneg =>
        rw [if_pos (abs_pos.mpr (ne_of_lt hneg))] at hpf
        cases hpf
      · next hneg =>
        intro t ht p hp
        by_contra hcon
        push_neg at hcon
        have hmem : p ∈ (trades.filterMap (·.pnl)).filter (· < 0) := by
          rw [List.mem_filter]
          refine ⟨List.mem_filterMap.mpr ⟨t, ht, hp⟩, by simpa using hcon⟩
        have := (sum_neg_iff_ne_nil hlneg).mpr
          (List.ne_nil_of_mem hmem)
        exact hneg this
    · intro hnoneg
      have hfil : (trades.filterMap (·.pnl)).filter (· < 0) = [] := by
        rw [List.filter_eq_nil_iff]
        intro x hx
        obtain ⟨t, ht, hp⟩ := List.mem_filterMap.mp hx
        have := hnoneg t ht x hp
        simpa using not_lt.mpr this
      rw [if_neg (by rw [hfil]; simp)]

/-- C2 counterexample: on an empty bar list the run succeeds with zero
trades and `profit_factor = 0` (`some 0`), not NaN (`none`), so "NaN
exactly when there are zero losing trades, including the empty case" is
false on the empty case. -/
theorem profit_factor_empty_counterexample :
    (Backtester.run ⟨cfgX, rcfgX⟩ []).map
      (fun r => (r.trades.isEmpty, r.profit_factor)) = .ok (true, some 0) := by
  norm_num [Backtester.run, sortBars, engineProcess, calculateMetrics,
    List.mergeSort, Except.map]

/-- On an empty trade list, `_calculate_metrics` reports profit_factor
0 (the `else` branch), not NaN. -/
theorem calculateMetrics_pf_empty (equity : List (ℕ × ℚ)) :
    (calculateMetrics [] equity).profit_factor = some 0 := by
  simp [calculateMetrics]

/-- When a losing trade exists, `_calculate_metrics` reports the
gains/|losses| ratio. -/
theorem calculateMetrics_pf_value (trades : List Trade)
    (equity : List (ℕ × ℚ))
    (hexists : ∃ t ∈ trades, ∃ p, t.pnl = some p ∧ p < 0) :
    (calculateMetrics trades equity).profit_factor = some
      (((trades.filterMap (·.pnl)).filter (0 < ·)).sum /
        |((trades.filterMap (·.pnl)).filter (· < 0)).sum|) := by
  obtain ⟨t, ht, p, hp, hneg⟩ := hexists
  have hmem : p ∈ trades.filterMap (·.pnl) :=
    List.mem_filterMap.mpr ⟨t, ht, hp⟩
  have hlmem : p ∈ (trades.filterMap (·.pnl)).filter (· < 0) := by
    rw [List.mem_filter]
    exact ⟨hmem, by simpa using hneg⟩
  have hlneg : ∀ x ∈ (trades.filterMap (·.pnl)).filter (· < 0), x < 0 := by
    intro x hx
    have hx' := List.of_mem_filter hx
    exact of_decide_eq_true hx'
  have hsum : ((trades.filterMap (·.pnl)).filter (· < 0)).sum < 0 :=
    (sum_neg_iff_ne_nil hlneg).mpr (List.ne_nil_of_mem hlmem)
  unfold calculateMetrics
  dsimp only
  rw [if_neg (by rw [List.isEmpty_iff]; exact List.ne_nil_of_mem hmem),
    if_pos hsum, if_pos (abs_pos.mpr (ne_of_lt hsum))]

/-- The zero-fee batch driver's concrete output on the losing two-bar
scenario. -/
theorem runL_eval : Backtester.run ⟨cfg0, rcfgX⟩ barsL = .ok resL := by
  norm_num [Backtester.run, sortBars, engineProcess, engineStep,
    engineStepExit, engineExitPrice, engineRecordEquity, engineStepEntry,
    compute_sl_tp, calculate_position_size_spot, calculateMetrics, cfg0,
    rcfgX, barsL, List.mergeSort, listMin, cummax, cummaxAux, List.filterMap,
    List.filter, resL, tradeL, BacktestResult.mk.injEq, Trade.mk.injEq]

/-- C2 (amended: NaN exactly when the trade list is nonempty and has no
losing trade; an empty trade list yields profit_factor 0, not NaN;
otherwise — when a losing trade exists — the profit factor equals the
sum of positive pnls divided by the absolute value of the sum of
negative pnls): full characterization over any batch run. -/
theorem profit_factor_nan_iff (cfg : BacktestConfig)
    (rcfg : RiskManagementConfig) (bars : List Bar) (res : BacktestResult)
    (h : Backtester.run ⟨cfg, rcfg⟩ bars = .ok res) :
    (res.profit_factor = none ↔
      res.trades ≠ [] ∧ ∀ t ∈ res.trades, ∀ p, t.pnl = some p → 0 ≤ p) ∧
    (res.trades = [] → res.profit_factor = some 0) ∧
    ((∃ t ∈ res.trades, ∃ p, t.pnl = some p ∧ p < 0) →
      res.profit_factor = some
        (((res.trades.filterMap (·.pnl)).filter (0 < ·)).sum /
          |((res.trades.filterMap (·.pnl)).filter (· < 0)).sum|)) := by
  unfold Backtester.run at h
  rcases hp : engineProcess cfg rcfg { capital := cfg.initial_capital }
      (sortBars bars) with e | st <;> simp only [hp] at h
  · cases h
  · cases h
    have hshape := engineProcess_trades_shape (sortBars bars) _ st hp
      (by intro t ht; cases ht)
    refine ⟨calculateMetrics_pf_none_iff st.trades st.equity
      (fun t ht => (hshape t ht).imp fun p hp => hp.1), ?_, ?_⟩
    · intro hnil
      have hnil' : st.trades = [] := hnil
      show (calculateMetrics st.trades st.equity).profit_factor = some 0
      rw [hnil']
      exact calculateMetrics_pf_empty st.equity
    · intro hex
      exact calculateMetrics_pf_value st.trades st.equity hex

/-- C2 witness: on the losing two-bar run the trade list is nonempty
with a losing trade, the profit factor is not NaN, and it equals
0 / |−10| = 0 as the value clause states. -/
theorem profit_factor_nan_iff_witness :
    (resL.profit_factor = none ↔
      resL.trades ≠ [] ∧ ∀ t ∈ resL.trades, ∀ p, t.pnl = some p → 0 ≤ p) ∧
    (resL.trades = [] → resL.profit_factor = some 0) ∧
    ((∃ t ∈ resL.trades, ∃ p, t.pnl = some p ∧ p < 0) →
      resL.profit_factor = some
        (((resL.trades.filterMap (·.pnl)).filter (0 < ·)).sum /
          |((resL.trades.filterMap (·.pnl)).filter (· < 0)).sum|)) :=
  profit_factor_nan_iff cfg0 rcfgX barsL resL runL_eval

/-! ## C8: the maximum drawdown is never positive -/

/-- Folding `min` can only decrease the accumulator. -/
theorem foldl_min_le (l : List ℚ) (a : ℚ) : l.foldl min a ≤ a := by
  induction l generalizing a with
  | nil => exact le_refl a
  | cons x xs ih => exact le_trans (ih (min a x)) (min_le_left a x)

/-- The minimum of a list of nonpositive rationals is nonpositive. -/
theorem listMin_nonpos {l : List ℚ} (h : ∀ x ∈ l, x ≤ 0) : listMin l ≤ 0 := by
  cases l with
  | nil => exact le_refl 0
  | cons x xs =>
    exact le_trans (foldl_min_le xs x) (h x (List.mem_cons_self x xs))

/-- Every drawdown entry against the running maximum is nonpositive,
provided the running maximum starts positive. -/
theorem zipWith_cummaxAux_nonpos :
    ∀ (l : List ℚ) (m : ℚ), 0 < m →
      ∀ x ∈ List.zipWith (fun e mm => (e - mm) / mm) l (cummaxAux m l), x ≤ 0 := by
  intro l
  induction l with
  | nil => intro m _ x hx; cases hx
  | cons y ys ih =>
    intro m hm x hx
    have hmax : 0 < max m y := lt_of_lt_of_le hm (le_max_left m y)
    simp only [cummaxAux, List.zipWith_cons_cons, List.mem_cons] at hx
    rcases hx with hx | hx
    · subst hx
      exact div_nonpos_iff.mpr
        (Or.inr ⟨sub_nonpos.mpr (le_max_right m y), le_of_lt hmax⟩)
    · exact ih (max m y) hmax x hx

/-- The `max_drawdown_pct` of `_calculate_metrics` is nonpositive as
soon as the first equity value is positive (or there is no sample). -/
theorem calculateMetrics_mdd_nonpos (trades : List Trade)
    (equity : List (ℕ × ℚ))
    (h : ∀ x, (equity.map (·.2)).head? = some x → 0 < x) :
    (calculateMetrics trades equity).max_drawdown_pct ≤ 0 := by
  unfold calculateMetrics
  dsimp only
  cases hevals : equity.map (·.2) with
  | nil => exact le_refl 0
  | cons e0 tl =>
    have he0 : 0 < e0 := h e0 (by rw [hevals]; rfl)
    have hzip : ∀ x ∈ List.zipWith (fun e m => (e - m) / m) (e0 :: tl)
        (cummax (e0 :: tl)), x ≤ 0 := by
      intro x hx
      simp only [cummax, List.zipWith_cons_cons, List.mem_cons] at hx
      rcases hx with hx | hx
      · subst hx
        rw [sub_self, zero_div]
      · exact zipWith_cummaxAux_nonpos tl e0 he0 x hx
    have hmin := listMin_nonpos hzip
    exact mul_nonpos_iff.mpr (Or.inr ⟨hmin, by norm_num⟩)

/-- The exit phase is the identity when no position is open. -/
theorem engineStepExit_flat {cfg : BacktestConfig} {st : EngineState}
    (bar : Bar) (hopen : st.open_trade = none) :
    engineStepExit cfg st bar = st := by
  unfold engineStepExit
  rw [hopen]

/-- A successful step appends exactly the post-exit capital as the
equity sample. -/
theorem engineStep_ok_equity {cfg : BacktestConfig}
    {rcfg : RiskManagementConfig} {st : EngineState} {bar : Bar}
    {st' : EngineState} (h : engineStep cfg rcfg st bar = .ok st') :
    st'.equity = st.equity ++
      [(bar.timestamp, (engineStepExit cfg st bar).capital)] := by
  unfold engineStep at h
  have he : st'.equity =
      (engineStepExit cfg st bar).equity ++
        [(bar.timestamp, (engineStepExit cfg st bar).capital)] :=
    (engineStepEntry_equity_trades h).1
  rw [he, engineStepExit_equity]

/-- A successful loop run only appends to the equity list. -/
theorem engineProcess_equity_append {cfg : BacktestConfig}
    {rcfg : RiskManagementConfig} :
    ∀ (bars : List Bar) (st st' : EngineState),
      engineProcess cfg rcfg st bars = .ok st' →
      ∃ l, st'.equity = st.equity ++ l := by
  intro bars
  induction bars with
  | nil =>
    intro st st' h
    cases h
    exact ⟨[], (List.append_nil _).symm⟩
  | cons bar rest ih =>
    intro st st' h
    unfold engineProcess at h
    rcases hstep : engineStep cfg rcfg st bar with e | st1 <;> rw [hstep] at h
    · cases h
    · obtain ⟨l, hl⟩ := ih st1 st' h
      refine ⟨(bar.timestamp, (engineStepExit cfg st bar).capital) :: l, ?_⟩
      rw [hl, engineStep_ok_equity hstep, List.append_assoc]
      rfl

/-- C8: starting from a positive initial capital, the reported
max_drawdown_pct of any successful batch run is ≤ 0 (0 when there are
no samples). -/
theorem max_drawdown_nonpos (cfg : BacktestConfig)
    (rcfg : RiskManagementConfig) (bars : List Bar) (res : BacktestResult)
    (hcap : 0 < cfg.initial_capital)
    (h : Backtester.run ⟨cfg, rcfg⟩ bars = .ok res) :
    res.max_drawdown_pct ≤ 0 := by
  unfold Backtester.run at h
  rcases hp : engineProcess cfg rcfg { capital := cfg.initial_capital }
      (sortBars bars) with e | st <;> simp only [hp] at h
  · cases h
  · cases h
    apply calculateMetrics_mdd_nonpos
    intro x hx
    rcases hsb : sortBars bars with _ | ⟨b, rest⟩ <;> rw [hsb] at hp
    · cases hp
      cases hx
    · unfold engineProcess at hp
      rcases hstep : engineStep cfg rcfg { capital := cfg.initial_capital } b
          with e | st1 <;> rw [hstep] at hp
      · cases hp
      · have h1 : st1.equity = [(b.timestamp, cfg.initial_capital)] := by
          have h2 := engineStep_ok_equity hstep
          rw [engineStepExit_flat b rfl] at h2
          exact h2
        obtain ⟨l, hl⟩ := engineProcess_equity_append rest st1 st hp
        rw [hl, h1] at hx
        simp only [List.cons_append, List.nil_append, List.map_cons,
          List.head?_cons, Option.some.injEq] at hx
        rw [← hx]
        exact hcap

/-- C8 witness: the two-bar winning run starts from capital 1000 > 0 and
reports max_drawdown_pct 0 ≤ 0. -/
theorem max_drawdown_nonpos_witness : resX.max_drawdown_pct ≤ 0 :=
  max_drawdown_nonpos cfgX rcfgX barsX resX (by norm_num [cfgX]) runX_eval

/-! ## C9: one equity sample per bar, taken between exit and entry -/

/-- A successful loop run appends exactly one equity sample per bar. -/
theorem engineProcess_equity_length {cfg : BacktestConfig}
    {rcfg : RiskManagementConfig} :
    ∀ (bars : List Bar) (st st' : EngineState),
      engineProcess cfg rcfg st bars = .ok st' →
      st'.equity.length = st.equity.length + bars.length := by
  intro bars
  induction bars with
  | nil =>
    intro st st' h
    cases h
    rfl
  | cons bar rest ih =>
    intro st st' h
    unfold engineProcess at h
    rcases hstep : engineStep cfg rcfg st bar with e | st1 <;> rw [hstep] at h
    · cases h
    · have h1 : st1.equity.length = st.equity.length + 1 := by
        rw [engineStep_ok_equity hstep, List.length_append]
        rfl
      rw [ih st1 st' h, h1, List.length_cons]
      omega

/-- C9: every successful batch run records exactly one equity sample per
input bar, and each step's sample is the capital after the exit phase
(before any entry-side debit, which never touches the recorded sample). -/
theorem equity_sample_per_bar :
    (∀ (cfg : BacktestConfig) (rcfg : RiskManagementConfig) (bars : List Bar)
        (res : BacktestResult),
      Backtester.run ⟨cfg, rcfg⟩ bars = .ok res →
      res.equity_curve.length = bars.length) ∧
    (∀ (cfg : BacktestConfig) (rcfg : RiskManagementConfig)
        (st : EngineState) (bar : Bar) (st' : EngineState),
      engineStep cfg rcfg st bar = .ok st' →
      st'.equity = st.equity ++
        [(bar.timestamp, (engineStepExit cfg st bar).capital)]) := by
  constructor
  · intro cfg rcfg bars res h
    unfold Backtester.run at h
    rcases hp : engineProcess cfg rcfg { capital := cfg.initial_capital }
        (sortBars bars) with e | st <;> simp only [hp] at h
    · cases h
    · cases h
      have := engineProcess_equity_length (sortBars bars) _ st hp
      simpa [sortBars, List.length_mergeSort] using this
  · intro cfg rcfg st bar st' h
    exact engineStep_ok_equity h

/-- C9 witness: on the two-bar scenario the equity curve has exactly two
samples. -/
theorem equity_sample_per_bar_witness :
    resX.equity_curve.length = barsX.length :=
  equity_sample_per_bar.1 cfgX rcfgX barsX resX runX_eval

/-! ## C7: missing volatility under the ATR exit model is fatal -/

/-- With the ATR exit model configured, a flat state, a qualifying
signal and no volatility reading, the step raises
`MissingVolatilityData`. -/
theorem engineStep_flat_error {cfg : BacktestConfig}
    {rcfg : RiskManagementConfig} {st : EngineState} {bar : Bar}
    (msl mtp : ℚ) (hA : cfg.atr_mult_sl = some msl)
    (hB : cfg.atr_mult_tp = some mtp) (hatr : bar.atr = none)
    (hopen : st.open_trade = none) (hq : Qualifies cfg bar) :
    engineStep cfg rcfg st bar = .error .missingVolatilityData := by
  have hsig : bar.signal ≠ 0 := by
    rcases hq with h | ⟨h, -⟩ <;> rw [h] <;> decide
  unfold engineStep
  rw [engineStepExit_flat bar hopen]
  unfold engineStepEntry
  rw [if_pos ⟨hopen, hsig⟩]
  have hcst : ∀ side, compute_sl_tp cfg side bar.close bar.atr =
      .error .missingVolatilityData := by
    intro side
    unfold compute_sl_tp
    rw [hA, hB, hatr]
  rcases hq with h1 | ⟨h1, hall⟩
  · rw [if_pos h1]
    dsimp only
    rw [hcst]
  · rw [if_neg (by rw [h1]; decide), if_pos ⟨h1, hall⟩]
    dsimp only
    rw [hcst]

/-- With a flat state and a non-qualifying signal, the step just records
an equity sample and stays flat. -/
theorem engineStep_flat_skip {cfg : BacktestConfig}
    {rcfg : RiskManagementConfig} {st : EngineState} {bar : Bar}
    (hopen : st.open_trade = none) (hq : ¬ Qualifies cfg bar) :
    engineStep cfg rcfg st bar =
      .ok (engineRecordEquity st bar) ∧
    (engineRecordEquity st bar).open_trade = none := by
  refine ⟨?_, hopen⟩
  unfold engineStep
  rw [engineStepExit_flat bar hopen]
  unfold engineStepEntry
  by_cases hs : bar.signal = 0
  · rw [if_neg (by simp [hs])]
  · rw [if_pos ⟨hopen, hs⟩]
    have h1 : ¬ bar.signal = 1 := fun h => hq (Or.inl h)
    have h2 : ¬ (bar.signal = -1 ∧ cfg.allow_short = true) :=
      fun h => hq (Or.inr h)
    rw [if_neg h1, if_neg h2]

/-- If every bar lacks a volatility reading, the ATR exit model is
configured and some bar qualifies for entry, the loop fails with
`MissingVolatilityData`. -/
theorem engineProcess_all_atr_none_error {cfg : BacktestConfig}
    (rcfg : RiskManagementConfig) (msl mtp : ℚ)
    (hA : cfg.atr_mult_sl = some msl) (hB : cfg.atr_mult_tp = some mtp) :
    ∀ (bars : List Bar) (st : EngineState), st.open_trade = none →
      (∀ b ∈ bars, b.atr = none) → (∃ b ∈ bars, Qualifies cfg b) →
      engineProcess cfg rcfg st bars = .error .missingVolatilityData := by
  intro bars
  induction bars with
  | nil =>
    rintro st - - ⟨b, hb, -⟩
    cases hb
  | cons bar rest ih =>
    intro st hopen hatr hq
    unfold engineProcess
    by_cases hqb : Qualifies cfg bar
    · rw [engineStep_flat_error msl mtp hA hB
        (hatr bar (List.mem_cons_self bar rest)) hopen hqb]
    · obtain ⟨hstep, hopen1⟩ := engineStep_flat_skip hopen hqb
      rw [hstep]
      refine ih (engineRecordEquity st bar) hopen1 ?_ ?_
      · intro b hb
        exact hatr b (List.mem_cons_of_mem bar hb)
      · obtain ⟨b, hb, hqq⟩ := hq
        rcases List.mem_cons.mp hb with hb | hb
        · subst hb
          exact absurd hqq hqb
        · exact ⟨b, hb, hqq⟩

/-- C7: when both ATR multipliers are set and no bar carries a valid
volatility reading, any run whose input contains a qualifying entry
signal fails with `MissingVolatilityData` — the error propagates to the
caller, who therefore receives no result and zero recorded trades. -/
theorem atr_missing_volatility_fatal (cfg : BacktestConfig)
    (rcfg : RiskManagementConfig) (bars : List Bar) (msl mtp : ℚ)
    (hA : cfg.atr_mult_sl = some msl) (hB : cfg.atr_mult_tp = some mtp)
    (hatr : ∀ b ∈ bars, b.atr = none)
    (hq : ∃ b ∈ bars, Qualifies cfg b) :
    Backtester.run ⟨cfg, rcfg⟩ bars = .error .missingVolatilityData := by
  unfold Backtester.run
  dsimp only
  have hperm := List.mergeSort_perm bars
    (fun a b => a.timestamp ≤ b.timestamp)
  rw [engineProcess_all_atr_none_error rcfg msl mtp hA hB (sortBars bars)
    { capital := cfg.initial_capital } rfl
    (fun b hb => hatr b (hperm.mem_iff.mp hb))
    (by obtain ⟨b, hb, hqq⟩ := hq; exact ⟨b, hperm.mem_iff.mpr hb, hqq⟩)]

/-- C7 witness: the ATR configuration on a single signal-1 bar without a
volatility reading fails with `MissingVolatilityData`. -/
theorem atr_missing_volatility_fatal_witness :
    Backtester.run ⟨cfgAtr, rcfgX⟩ [barNoAtr] =
      .error .missingVolatilityData :=
  atr_missing_volatility_fatal cfgAtr rcfgX [barNoAtr] 2 3 rfl rfl
    (by intro b hb; rcases List.mem_singleton.mp hb with rfl; rfl)
    ⟨barNoAtr, List.mem_singleton_self barNoAtr, Or.inl rfl⟩

/-! ## C3: non-monotonic timestamps are sorted, not rejected -/

/-- With the fixed-percent model fully configured (and the ATR model not
selected), `compute_sl_tp` always succeeds. -/
theorem compute_sl_tp_fixed_total {cfg : BacktestConfig} {s r : ℚ}
    (hA : cfg.atr_mult_sl = none) (hS : cfg.sl_pct = some s)
    (hR : cfg.tp_rr = some r) :
    ∀ (side : Side) (ep : ℚ) (atr : Option ℚ),
      ∃ pr, compute_sl_tp cfg side ep atr = .ok pr := by
  intro side ep atr
  refine ⟨?_, ?_⟩
  · exact match side with
      | .long => (ep * (1 - s), ep * (1 + s * r))
      | .short => (ep * (1 + s), ep * (1 - s * r))
  · unfold compute_sl_tp
    rw [hA, hS, hR]
    cases side <;> rfl

/-- Under the same configuration, every step succeeds. -/
theorem engineStep_fixed_total {cfg : BacktestConfig}
    (rcfg : RiskManagementConfig) {s r : ℚ} (hA : cfg.atr_mult_sl = none)
    (hS : cfg.sl_pct = some s) (hR : cfg.tp_rr = some r)
    (st : EngineState) (bar : Bar) :
    ∃ st', engineStep cfg rcfg st bar = .ok st' := by
  unfold engineStep engineStepEntry
  split
  · split
    · dsimp only
      obtain ⟨pr, hpr⟩ := compute_sl_tp_fixed_total hA hS hR .long bar.close bar.atr
      rw [hpr]
      rcases pr with ⟨sl, tp⟩
      dsimp only
      split
      · exact ⟨_, rfl⟩
      · exact ⟨_, rfl⟩
    · split
      · dsimp only
        obtain ⟨pr, hpr⟩ :=
          compute_sl_tp_fixed_total hA hS hR .short bar.close bar.atr
        rw [hpr]
        rcases pr with ⟨sl, tp⟩
        dsimp only
        split
        · exact ⟨_, rfl⟩
        · exact ⟨_, rfl⟩
      · exact ⟨_, rfl⟩
  · exact ⟨_, rfl⟩

/-- Under the same configuration, the whole loop succeeds. -/
theorem engineProcess_fixed_total {cfg : BacktestConfig}
    (rcfg : RiskManagementConfig) {s r : ℚ} (hA : cfg.atr_mult_sl = none)
    (hS : cfg.sl_pct = some s) (hR : cfg.tp_rr = some r) :
    ∀ (bars : List Bar) (st : EngineState),
      ∃ st', engineProcess cfg rcfg st bars = .ok st' := by
  intro bars
  induction bars with
  | nil => exact fun st => ⟨st, rfl⟩
  | cons bar rest ih =>
    intro st
    obtain ⟨st1, hstep⟩ := engineStep_fixed_total rcfg hA hS hR st bar
    obtain ⟨st', hrest⟩ := ih st1
    refine ⟨st', ?_⟩
    unfold engineProcess
    rw [hstep]
    exact hrest

/-- With the ATR model fully configured and a volatility reading
present, `compute_sl_tp` always succeeds. -/
theorem compute_sl_tp_atr_total {cfg : BacktestConfig} {msl mtp : ℚ}
    (hA : cfg.atr_mult_sl = some msl) (hB : cfg.atr_mult_tp = some mtp)
    (side : Side) (ep a : ℚ) :
    ∃ pr, compute_sl_tp cfg side ep (some a) = .ok pr := by
  refine ⟨?_, ?_⟩
  · exact match side with
      | .long => (ep - a * msl, ep + a * mtp)
      | .short => (ep + a * msl, ep - a * mtp)
  · unfold compute_sl_tp
    rw [hA, hB]
    cases side <;> rfl

/-- Under the ATR model, a step on a bar carrying a volatility reading
succeeds. -/
theorem engineStep_atr_total {cfg : BacktestConfig}
    (rcfg : RiskManagementConfig) {msl mtp : ℚ}
    (hA : cfg.atr_mult_sl = some msl) (hB : cfg.atr_mult_tp = some mtp)
    (st : EngineState) (bar : Bar) (ha : bar.atr ≠ none) :
    ∃ st', engineStep cfg rcfg st bar = .ok st' := by
  rcases hatr : bar.atr with _ | a
  · exact absurd hatr ha
  · unfold engineStep engineStepEntry
    split
    · split
      · dsimp only
        rw [hatr]
        obtain ⟨pr, hpr⟩ := compute_sl_tp_atr_total hA hB .long bar.close a
        rw [hpr]
        rcases pr with ⟨sl, tp⟩
        dsimp only
        split
        · exact ⟨_, rfl⟩
        · exact ⟨_, rfl⟩
      · split
        · dsimp only
          rw [hatr]
          obtain ⟨pr, hpr⟩ := compute_sl_tp_atr_total hA hB .short bar.close a
          rw [hpr]
          rcases pr with ⟨sl, tp⟩
          dsimp only
          split
          · exact ⟨_, rfl⟩
          · exact ⟨_, rfl⟩
        · exact ⟨_, rfl⟩
    · exact ⟨_, rfl⟩

/-- Under the ATR model, the whole loop succeeds when every bar carries
a volatility reading. -/
theorem engineProcess_atr_total {cfg : BacktestConfig}
    (rcfg : RiskManagementConfig) {msl mtp : ℚ}
    (hA : cfg.atr_mult_sl = some msl) (hB : cfg.atr_mult_tp = some mtp) :
    ∀ (bars : List Bar) (st : EngineState), (∀ b ∈ bars, b.atr ≠ none) →
      ∃ st', engineProcess cfg rcfg st bars = .ok st' := by
  intro bars
  induction bars with
  | nil => exact fun st _ => ⟨st, rfl⟩
  | cons bar rest ih =>
    intro st ha
    obtain ⟨st1, hstep⟩ := engineStep_atr_total rcfg hA hB st bar
      (ha bar (List.mem_cons_self bar rest))
    obtain ⟨st', hrest⟩ := ih st1 fun b hb => ha b (List.mem_cons_of_mem bar hb)
    refine ⟨st', ?_⟩
    unfold engineProcess
    rw [hstep]
    exact hrest

/-- C3 (amended: the batch driver never rejects non-monotonic
timestamps; it sorts the rows by timestamp — so its output only depends
on the sorted sequence — and proceeds; with a fully configured exit
model — fixed-percent, or ATR-based when every bar carries a volatility
reading — every input, sorted or not, produces a result). -/
theorem run_sorts_instead_of_failing :
    (∀ (bt : Backtester) (bars : List Bar),
      Backtester.run bt bars = Backtester.run bt (sortBars bars)) ∧
    (∀ (cfg : BacktestConfig) (rcfg : RiskManagementConfig) (s r : ℚ),
      cfg.atr_mult_sl = none → cfg.sl_pct = some s → cfg.tp_rr = some r →
      ∀ bars : List Bar, ∃ res, Backtester.run ⟨cfg, rcfg⟩ bars = .ok res) ∧
    (∀ (cfg : BacktestConfig) (rcfg : RiskManagementConfig) (msl mtp : ℚ),
      cfg.atr_mult_sl = some msl → cfg.atr_mult_tp = some mtp →
      ∀ bars : List Bar, (∀ b ∈ bars, b.atr ≠ none) →
      ∃ res, Backtester.run ⟨cfg, rcfg⟩ bars = .ok res) := by
  refine ⟨?_, ?_, ?_⟩
  · intro bt bars
    have hidem : sortBars (sortBars bars) = sortBars bars := by
      unfold sortBars
      apply List.mergeSort_of_sorted
      apply List.sorted_mergeSort
      · intro a b c hab hbc
        simp only [decide_eq_true_eq] at hab hbc ⊢
        omega
      · intro a b
        simp only [Bool.or_eq_true, decide_eq_true_eq]
        omega
    unfold Backtester.run
    rw [hidem]
  · intro cfg rcfg s r hA hS hR bars
    obtain ⟨st', hp⟩ := engineProcess_fixed_total rcfg hA hS hR (sortBars bars)
      { capital := cfg.initial_capital }
    refine ⟨calculateMetrics st'.trades st'.equity, ?_⟩
    unfold Backtester.run
    dsimp only
    rw [hp]
  · intro cfg rcfg msl mtp hA hB bars ha
    have hperm := List.mergeSort_perm bars
      (fun a b => a.timestamp ≤ b.timestamp)
    obtain ⟨st', hp⟩ := engineProcess_atr_total rcfg hA hB (sortBars bars)
      { capital := cfg.initial_capital }
      (fun b hb => ha b (hperm.mem_iff.mp hb))
    refine ⟨calculateMetrics st'.trades st'.equity, ?_⟩
    unfold Backtester.run
    dsimp only
    rw [hp]

/-- C3 counterexample: an input whose timestamps 5, 2 are not strictly
increasing is not rejected — the run returns a normal result (with the
bars silently sorted), instead of failing fast with an InvalidInput
error as claimed. -/
theorem nonmonotonic_input_counterexample :
    bars3.map Bar.timestamp = [5, 2] ∧
    Backtester.run ⟨cfgX, rcfgX⟩ bars3 = .ok res3 := by
  constructor
  · rfl
  · norm_num [Backtester.run, sortBars, engineProcess, engineStep,
      engineStepExit, engineExitPrice, engineRecordEquity, engineStepEntry,
      compute_sl_tp, calculate_position_size_spot, calculateMetrics, cfgX,
      rcfgX, bars3, List.mergeSort, listMin, cummax, cummaxAux,
      List.filterMap, List.filter, res3, BacktestResult.mk.injEq]

/-- C3 witness: the amended statement instantiated on the decreasing
input `bars3`: the fixed-percent run produces a result. -/
theorem run_sorts_instead_of_failing_witness :
    ∃ res, Backtester.run ⟨cfgX, rcfgX⟩ bars3 = .ok res :=
  run_sorts_instead_of_failing.2.1 cfgX rcfgX (1/100) 2 rfl rfl rfl bars3

/-! ## C1: batch vs streaming driver equivalence -/

/-- Phase 1 (exit) preserves the correspondence when the fee is zero. -/
theorem corr_exit {cfg : BacktestConfig} {rcfg : RiskManagementConfig}
    {st : EngineState} {b : PaperBroker} (hfee : cfg.fee_pct = 0)
    (hc : Corr cfg rcfg st b) (bar : Bar) :
    Corr cfg rcfg (engineStepExit cfg st bar)
      (b.processExistingPosition bar.timestamp bar.high bar.low) := by
  obtain ⟨hcfg, hrcfg, hslip, hspread, hcap, htr, heq, hlen, hop⟩ := hc
  unfold engineStepExit PaperBroker.processExistingPosition
  rcases hot : st.open_trade with _ | ot <;>
    rcases hpos : b.open_position with _ | pos <;>
      rw [hot, hpos] at hop <;> try dsimp only
  · exact ⟨hcfg, hrcfg, hslip, hspread, hcap, htr, heq, hlen,
      by rw [hot, hpos]; trivial⟩
  · exact False.elim hop
  · exact False.elim hop
  · obtain ⟨hdir, het, hep, hsz, hsp, htp⟩ := hop
    have hex : engineExitPrice ot bar =
        (brokerRawExit pos bar.high bar.low).map (·.1) := by
      unfold engineExitPrice brokerRawExit
      rw [hdir, hsp, htp]
      cases pos.side <;> split_ifs <;> rfl
    rcases hre : brokerRawExit pos bar.high bar.low with _ | ⟨raw, reason⟩
    · have hee : engineExitPrice ot bar = none := by rw [hex, hre]; rfl
      rw [hee]
      refine ⟨hcfg, hrcfg, hslip, hspread, hcap, htr, heq, hlen, ?_⟩
      rw [hot, hpos]
      exact ⟨hdir, het, hep, hsz, hsp, htp⟩
    · have hee : engineExitPrice ot bar = some raw := by rw [hex, hre]; rfl
      rw [hee]
      dsimp only
      have hnlt : ¬ (0 < b.slippage_pct) := by
        rw [hslip]
        exact lt_irrefl 0
      rw [if_neg hnlt]
      have hfee' : b.bt_cfg.fee_pct = 0 := by rw [hcfg]; exact hfee
      have hpnl :
          (match ot.direction with
            | Side.long => (raw - ot.entry_price) * ot.size
            | Side.short => (ot.entry_price - raw) * ot.size) =
          (match pos.side with
            | Side.long => (raw - pos.entry_price) * pos.size
            | Side.short => (pos.entry_price - raw) * pos.size) := by
        rw [hdir, hep, hsz]
      refine ⟨hcfg, hrcfg, hslip, hspread, ?_, ?_, heq, hlen, trivial⟩
      · show st.capital + _ = b.capital + _
        rw [hcap, hfee, hfee', hpnl]
        ring_nf
      · show List.map Trade.view (st.trades ++ [_]) =
          List.map TradeLogEntry.view (b.history ++ [_])
        simp only [List.map_append, List.map_cons, List.map_nil, htr]
        congr 1
        simp only [Trade.view, TradeLogEntry.view, Option.getD_some]
        rw [hfee, hfee', hpnl, hdir, het, hep, hsz]
        congr 1
        ring_nf

/-- Phase 2 (the equity sample) preserves the correspondence. -/
theorem corr_record {cfg : BacktestConfig} {rcfg : RiskManagementConfig}
    {st : EngineState} {b : PaperBroker} (hc : Corr cfg rcfg st b)
    (bar : Bar) :
    Corr cfg rcfg (engineRecordEquity st bar)
      { b with equity_times := b.equity_times ++ [bar.timestamp],
               equity_values := b.equity_values ++ [b.capital] } := by
  obtain ⟨hcfg, hrcfg, hslip, hspread, hcap, htr, heq, hlen, hop⟩ := hc
  refine ⟨hcfg, hrcfg, hslip, hspread, hcap, htr, ?_, ?_, hop⟩
  · show st.equity ++ [(bar.timestamp, st.capital)] =
      (b.equity_times ++ [bar.timestamp]).zip (b.equity_values ++ [b.capital])
    rw [List.zip_append hlen, ← heq, hcap]
    rfl
  · show (b.equity_times ++ [bar.timestamp]).length =
      (b.equity_values ++ [b.capital]).length
    simp [hlen]

/-- Phase 3 (the entry) preserves the correspondence when the fee is
zero: both drivers raise the same error or both succeed in
corresponding states. -/
theorem corr_entry {cfg : BacktestConfig} {rcfg : RiskManagementConfig}
    {st : EngineState} {b : PaperBroker} (hfee : cfg.fee_pct = 0)
    (hc : Corr cfg rcfg st b) (bar : Bar) (hsig : bar.signal ≠ 0) :
    (∃ e, engineStepEntry cfg rcfg st bar = .error e ∧
        b.maybeOpenPosition bar.timestamp bar.close bar.signal bar.atr =
          .error e) ∨
    (∃ st' b', engineStepEntry cfg rcfg st bar = .ok st' ∧
        b.maybeOpenPosition bar.timestamp bar.close bar.signal bar.atr =
          .ok b' ∧
        Corr cfg rcfg st' b') := by
  obtain ⟨hcfg, hrcfg, hslip, hspread, hcap, htr, heq, hlen, hop⟩ := hc
  have hnspread : ¬ (0 < b.spread_pct) := by
    rw [hspread]
    exact lt_irrefl 0
  have hnslip : ¬ (0 < b.slippage_pct) := by
    rw [hslip]
    exact lt_irrefl 0
  unfold engineStepEntry PaperBroker.maybeOpenPosition
  rcases hot : st.open_trade with _ | ot <;>
    rcases hpos : b.open_position with _ | pos <;> rw [hot, hpos] at hop
  · -- both flat: the entry attempt proceeds in both drivers
    rw [if_pos (⟨rfl, hsig⟩ : (none : Option Trade) = none ∧ bar.signal ≠ 0)]
    rw [if_neg (by simp : ¬ (Option.isSome (none : Option Position) = true))]
    rw [hcfg, hrcfg, hcap]
    by_cases h1 : bar.signal = 1
    · rw [if_pos h1]
      dsimp only
      have hbep : brokerEntryPrice b .long bar.close = bar.close := by
        unfold brokerEntryPrice
        dsimp only
        rw [if_neg hnslip, if_neg hnspread]
      rw [hbep]
      rcases hcst : compute_sl_tp cfg .long bar.close bar.atr
        with e | ⟨sl, tp⟩
      · exact Or.inl ⟨e, rfl, rfl⟩
      · dsimp only
        by_cases hsz :
            calculate_position_size_spot b.capital bar.close sl rcfg ≤ 0
        · rw [if_neg (not_lt.mpr hsz), if_pos hsz]
          exact Or.inr ⟨st, b, rfl, rfl, hcfg, hrcfg, hslip, hspread, hcap,
            htr, heq, hlen, by rw [hot, hpos]; trivial⟩
        · push_neg at hsz
          rw [if_pos hsz, if_neg (not_le.mpr hsz)]
          exact Or.inr ⟨_, _, rfl, rfl, rfl, rfl, hslip, hspread, rfl, htr,
            heq, hlen, ⟨rfl, rfl, rfl, rfl, rfl, rfl⟩⟩
    · by_cases h2 : bar.signal = -1 ∧ cfg.allow_short = true
      · rw [if_neg h1, if_pos h2]
        dsimp only
        have hbep : brokerEntryPrice b .short bar.close = bar.close := by
          unfold brokerEntryPrice
          dsimp only
          rw [if_neg hnslip, if_neg hnspread]
        rw [hbep]
        rcases hcst : compute_sl_tp cfg .short bar.close bar.atr
          with e | ⟨sl, tp⟩
        · exact Or.inl ⟨e, rfl, rfl⟩
        · dsimp only
          by_cases hsz :
              calculate_position_size_spot b.capital bar.close sl rcfg ≤ 0
          · rw [if_neg (not_lt.mpr hsz), if_pos hsz]
            exact Or.inr ⟨st, b, rfl, rfl, hcfg, hrcfg, hslip, hspread, hcap,
              htr, heq, hlen, by rw [hot, hpos]; trivial⟩
          · push_neg at hsz
            rw [if_pos hsz, if_neg (not_le.mpr hsz)]
            exact Or.inr ⟨_, _, rfl, rfl, rfl, rfl, hslip, hspread, rfl, htr,
              heq, hlen, ⟨rfl, rfl, rfl, rfl, rfl, rfl⟩⟩
      · rw [if_neg h1, if_neg h2]
        exact Or.inr ⟨st, b, rfl, rfl, hcfg, hrcfg, hslip, hspread, hcap,
          htr, heq, hlen, by rw [hot, hpos]; trivial⟩
  · exact False.elim hop
  · exact False.elim hop
  · -- both have an open position: no entry on either side
    rw [if_neg (by simp : ¬ ((some ot = none) ∧ bar.signal ≠ 0))]
    rw [if_pos (show Option.isSome (some pos) = true by simp)]
    exact Or.inr ⟨st, b, rfl, rfl, hcfg, hrcfg, hslip, hspread, hcap, htr,
      heq, hlen, by rw [hot, hpos]; exact hop⟩

/-- One full bar preserves the correspondence when the fee is zero. -/
theorem corr_step {cfg : BacktestConfig} {rcfg : RiskManagementConfig}
    {st : EngineState} {b : PaperBroker} (hfee : cfg.fee_pct = 0)
    (hc : Corr cfg rcfg st b) (bar : Bar) :
    (∃ e, engineStep cfg rcfg st bar = .error e ∧
        b.on_bar bar bar.signal bar.atr = .error e) ∨
    (∃ st' b', engineStep cfg rcfg st bar = .ok st' ∧
        b.on_bar bar bar.signal bar.atr = .ok b' ∧ Corr cfg rcfg st' b') := by
  have h1 := corr_exit hfee hc bar
  have h2 := corr_record h1 bar
  unfold engineStep PaperBroker.on_bar
  dsimp only
  by_cases hs : bar.signal = 0
  · right
    refine ⟨_, _, ?_, ?_, h2⟩
    · unfold engineStepEntry
      rw [if_neg (by simp [hs])]
    · rw [if_neg (by simp [hs])]
  · have h3 := corr_entry hfee h2 bar hs
    rcases h3 with ⟨e, he, hb⟩ | ⟨st', b', hst, hb, hc'⟩
    · exact Or.inl ⟨e, he, by rw [if_pos hs]; exact hb⟩
    · exact Or.inr ⟨st', b', hst, by rw [if_pos hs]; exact hb, hc'⟩

/-- The whole loop preserves the correspondence when the fee is zero. -/
theorem corr_process {cfg : BacktestConfig} {rcfg : RiskManagementConfig}
    (hfee : cfg.fee_pct = 0) :
    ∀ (bars : List Bar) (st : EngineState) (b : PaperBroker),
      Corr cfg rcfg st b →
      (∃ e, engineProcess cfg rcfg st bars = .error e ∧
          PaperBroker.feed b bars = .error e) ∨
      (∃ st' b', engineProcess cfg rcfg st bars = .ok st' ∧
          PaperBroker.feed b bars = .ok b' ∧ Corr cfg rcfg st' b') := by
  intro bars
  induction bars with
  | nil =>
    intro st b hc
    exact Or.inr ⟨st, b, rfl, rfl, hc⟩
  | cons bar rest ih =>
    intro st b hc
    rcases corr_step hfee hc bar with ⟨e, he, hb⟩ | ⟨st1, b1, hst, hb, hc1⟩
    · refine Or.inl ⟨e, ?_, ?_⟩
      · unfold engineProcess
        rw [he]
      · unfold PaperBroker.feed
        rw [hb]
    · rcases ih st1 b1 hc1 with ⟨e, he2, hb2⟩ | ⟨st', b', hst2, hb2, hc2⟩
      · refine Or.inl ⟨e, ?_, ?_⟩
        · unfold engineProcess
          rw [hst]
          exact he2
        · unfold PaperBroker.feed
          rw [hb]
          exact hb2
      · refine Or.inr ⟨st', b', ?_, ?_, hc2⟩
        · unfold engineProcess
          rw [hst]
          exact hst2
        · unfold PaperBroker.feed
          rw [hb]
          exact hb2

/-- C1 (amended: the equivalence additionally requires `fee_pct = 0`,
and the streaming driver must receive the bars in the batch driver's
sorted order; with a nonzero fee the drivers disagree because the broker
also subtracts the entry fee from the reported pnl): with zero
fee/slippage/spread the two drivers fail identically or produce the same
closed-trade history (times, prices, sizes, pnl), the same equity
samples and the same final capital. -/
theorem batch_streaming_equiv_zero_fee (cfg : BacktestConfig)
    (rcfg : RiskManagementConfig) (sym : String) (bars : List Bar)
    (hfee : cfg.fee_pct = 0) :
    (∀ e, Backtester.run ⟨cfg, rcfg⟩ bars = .error e ↔
      PaperBroker.feed (PaperBroker.mk' sym cfg rcfg 0 0) (sortBars bars) =
        .error e) ∧
    (∀ st' b',
      engineProcess cfg rcfg { capital := cfg.initial_capital }
          (sortBars bars) = .ok st' →
      PaperBroker.feed (PaperBroker.mk' sym cfg rcfg 0 0) (sortBars bars) =
        .ok b' →
      st'.capital = b'.capital) ∧
    (∀ res, Backtester.run ⟨cfg, rcfg⟩ bars = .ok res →
      ∃ b', PaperBroker.feed (PaperBroker.mk' sym cfg rcfg 0 0)
          (sortBars bars) = .ok b' ∧
        res.trades.map Trade.view = b'.history.map TradeLogEntry.view ∧
        res.equity_curve = b'.equity_times.zip b'.equity_values) := by
  have hinit : Corr cfg rcfg { capital := cfg.initial_capital }
      (PaperBroker.mk' sym cfg rcfg 0 0) :=
    ⟨rfl, rfl, rfl, rfl, rfl, rfl, rfl, rfl, trivial⟩
  have hmain := corr_process hfee (sortBars bars) _ _ hinit
  refine ⟨?_, ?_, ?_⟩
  · intro e
    unfold Backtester.run
    dsimp only
    rcases hmain with ⟨e', he, hb⟩ | ⟨st', b', hst, hb, hc⟩
    · rw [he, hb]
      simp
    · rw [hst, hb]
      simp
  · intro st' b' hst hb
    rcases hmain with ⟨e', he, hb2⟩ | ⟨st2, b2, hst2, hb2, hc2⟩
    · rw [he] at hst
      cases hst
    · rw [hst2] at hst
      rw [hb2] at hb
      cases hst
      cases hb
      exact hc2.2.2.2.2.1
  · intro res hres
    unfold Backtester.run at hres
    dsimp only at hres
    rcases hmain with ⟨e', he, hb⟩ | ⟨st', b', hst, hb, hc⟩
    · rw [he] at hres
      cases hres
    · rw [hst] at hres
      obtain ⟨-, -, -, -, -, htr, heq, -, -⟩ := hc
      cases hres
      exact ⟨b', hb, htr, heq⟩

/-- C1 counterexample: with the claim's premises (slippage 0, spread 0)
but a nonzero fee (0.1%), the two drivers disagree on the same two-bar
input: the batch trade reports pnl 18.98 (exit fee only) while the
streaming trade reports pnl 17.98 (entry fee deducted a second time). -/
theorem batch_streaming_fee_counterexample :
    (Backtester.run ⟨cfgX, rcfgX⟩ barsX).map
        (fun r => r.trades.map Trade.view) ≠
      (PaperBroker.feed (PaperBroker.mk' symX cfgX rcfgX 0 0) barsX).map
        (fun b => b.history.map TradeLogEntry.view) := by
  norm_num [Backtester.run, sortBars, PaperBroker.feed, PaperBroker.mk',
    PaperBroker.on_bar, PaperBroker.processExistingPosition, brokerRawExit,
    brokerEntryPrice, PaperBroker.maybeOpenPosition, engineProcess,
    engineStep, engineStepExit, engineExitPrice, engineRecordEquity,
    engineStepEntry, compute_sl_tp, calculate_position_size_spot,
    calculateMetrics, cfgX, rcfgX, barsX, Trade.view, TradeLogEntry.view,
    List.mergeSort, listMin, cummax, cummaxAux, Except.map, List.filterMap,
    List.filter, Option.getD]

/-- The zero-fee batch driver's concrete output on the two-bar scenario. -/
theorem run0_eval : Backtester.run ⟨cfg0, rcfgX⟩ barsX = .ok res0 := by
  norm_num [Backtester.run, sortBars, engineProcess, engineStep,
    engineStepExit, engineExitPrice, engineRecordEquity, engineStepEntry,
    compute_sl_tp, calculate_position_size_spot, calculateMetrics, cfg0,
    rcfgX, barsX, List.mergeSort, listMin, cummax, cummaxAux, List.filterMap,
    List.filter, res0, trade0, BacktestResult.mk.injEq, Trade.mk.injEq]

/-- C1 witness: the amended equivalence instantiated on the zero-fee
two-bar scenario: the streaming driver reproduces the batch trade
history and equity samples. -/
theorem batch_streaming_equiv_zero_fee_witness :
    ∃ b', PaperBroker.feed (PaperBroker.mk' symX cfg0 rcfgX 0 0)
        (sortBars barsX) = .ok b' ∧
      res0.trades.map Trade.view = b'.history.map TradeLogEntry.view ∧
      res0.equity_curve = b'.equity_times.zip b'.equity_values :=
  (batch_streaming_equiv_zero_fee cfg0 rcfgX symX barsX rfl).2.2 res0 run0_eval

end CryptoBot
